import Mathlib

/-!
Verification of the fly_in map parser (src/parser.py) against its
natural-language specification.

The Python source is shallowly embedded below.  Strings are handled as
lists of characters; Python exceptions become an explicit error type
returned through Except.  Each error constructor corresponds to one
reachable raise site in the source and carries exactly the data that the
source interpolates into the exception message.  The regular expressions
used by InputParser.parse_input are embedded as deterministic
recursive-descent matchers; for these particular patterns maximal munch
coincides with the backtracking semantics of re.match because every
repeated character class is disjoint from the character that must follow
it.  The embedding restricts the character classes of re (\w, \d, \s) and
of int() to their ASCII meaning and does not model underscore digit
grouping in int(); no claim depends on the difference.
-/

/-- Whitespace test used for the embedded str.split(), str.strip() and
the regex class backslash-s. -/
def isWS (c : Char) : Bool := c.isWhitespace

/-- Word character test for the regex class backslash-w. -/
def isWordChar (c : Char) : Bool := c.isAlphanum || c == '_'

/-- Remove a literal from the front of the input, returning the rest.
Models str.startswith and literal parts of the regexes. -/
def chopLit : List Char → List Char → Option (List Char)
  | [], cs => some cs
  | _ :: _, [] => none
  | p :: ps, c :: cs => if c = p then chopLit ps cs else none

/-- Python str.strip(): drop whitespace at both ends. -/
def trimChars (cs : List Char) : List Char :=
  ((cs.dropWhile isWS).reverse.dropWhile isWS).reverse

/-- Split a character list at every character satisfying p.  Returns the
piece before the first split point and the remaining pieces.  Together
with splitFull this models Python str.split(sep) for one-character
separators, and with a whitespace predicate plus empty-piece filtering
it models str.split(). -/
def splitPred (p : Char → Bool) : List Char → List Char × List (List Char)
  | [] => ([], [])
  | c :: cs =>
    if p c then ([], (splitPred p cs).1 :: (splitPred p cs).2)
    else (c :: (splitPred p cs).1, (splitPred p cs).2)

/-- All pieces of a split, in order. -/
def splitFull (p : Char → Bool) (cs : List Char) : List (List Char) :=
  (splitPred p cs).1 :: (splitPred p cs).2

/-- Python str.split() with no separator: whitespace-separated tokens,
empty pieces discarded. -/
def pyTokens (cs : List Char) : List (List Char) :=
  (splitFull isWS cs).filter (fun t => !t.isEmpty)

/-- Numeric value of a digit string, as folded up by the embedded int(). -/
def digitsVal (ds : List Char) : Nat :=
  ds.foldl (fun a c => a * 10 + (c.toNat - 48)) 0

/-- Digits-only part of the embedded Python int(): at least one ASCII
digit and nothing else. -/
def pyIntAfterSign (cs : List Char) : Option Nat :=
  if cs ≠ [] ∧ cs.all Char.isDigit then some (digitsVal cs) else none

/-- Python int(str): strip whitespace, optional single sign, digits. -/
def pyIntChars (cs : List Char) : Option Int :=
  match trimChars cs with
  | [] => none
  | c :: rest =>
    if c = '-' then (pyIntAfterSign rest).map (fun n => -(n : Int))
    else if c = '+' then (pyIntAfterSign rest).map (fun n => (n : Int))
    else (pyIntAfterSign (c :: rest)).map (fun n => (n : Int))

/-! ## Data model (parser.py lines 28-76) -/

/-- ZoneTypes enumeration (parser.py line 28). -/
inductive ZoneTypes where
  | normal
  | blocked
  | restricted
  | priority
deriving DecidableEq, Repr

/-- ZoneTypes(value): the StrEnum constructor succeeds exactly on the
four enumerator strings (parser.py lines 29-32). -/
def zoneTypeOfString (s : String) : Option ZoneTypes :=
  if s = "normal" then some .normal
  else if s = "blocked" then some .blocked
  else if s = "restricted" then some .restricted
  else if s = "priority" then some .priority
  else none

/-- ZoneMetadata dataclass with its defaults (parser.py lines 64-68). -/
structure ZoneMetadata where
  color : Option String := none
  zone : ZoneTypes := .normal
  max_drones : Int := 1
deriving DecidableEq, Repr

/-- ConnectionMetadata dataclass with its default (parser.py lines 71-73). -/
structure ConnectionMetadata where
  max_link_capacity : Int := 1
deriving DecidableEq, Repr

/-- One entry of self.zones: the three keys written by parse_input
(parser.py lines 177-185). -/
structure Zone where
  hub_type : String
  coordinates : Int × Int
  metadata : ZoneMetadata
deriving DecidableEq, Repr

/-- One entry of self.connections (parser.py lines 218-233). -/
structure AdjacencyEntry where
  connections : List String
  metadata : List (String × ConnectionMetadata)
deriving DecidableEq, Repr

/-- The reachable raise sites of parser.py, with the data each message
interpolates.
  dictBadElement: ValueError raised by dict() on a token whose split on
    the equals sign does not have exactly two pieces (line 111);
  invalidKey: line 124;
  mustBeInteger: line 134 -- note that the positivity ValueError raised
    at line 131 is caught by the except clause at line 133, so a zero or
    negative value also surfaces through this constructor;
  invalidZoneType: ValueError raised by ZoneTypes(value) at line 138;
  intLiteral: ValueError raised by int() at line 167;
  negativeDrones: line 169; selfConnection: line 192;
  duplicateConnection: line 197. -/
inductive ParseError where
  | dictBadElement (idx : Nat) (len : Nat)
  | invalidKey (key : String) (allowed : List String)
  | mustBeInteger (key : String) (value : String)
  | invalidZoneType (value : String)
  | intLiteral (value : String)
  | negativeDrones (n : Int)
  | selfConnection (a b : String)
  | duplicateConnection (a b : String)
deriving DecidableEq, Repr

/-- Mutable state of InputParser during parse_input, including the
local seen_connections set (parser.py lines 93-98 and 162). -/
structure ParserState where
  zones : List (String × Zone)
  raw_connections : List ((String × String) × ConnectionMetadata)
  connections : List (String × AdjacencyEntry)
  seen : List (String × String)
  number_of_drones : Int
deriving DecidableEq, Repr

/-- Initial parser state (parser.py lines 93-98). -/
def initState : ParserState := ⟨[], [], [], [], 0⟩

/-! ## Association-list primitives modelling Python dict and set -/

/-- Python dict lookup. -/
def getAssoc {β : Type} : List (String × β) → String → Option β
  | [], _ => none
  | (k1, v) :: rest, k => if k1 = k then some v else getAssoc rest k

/-- Python dict insert-or-overwrite, preserving insertion order. -/
def setAssoc {β : Type} : List (String × β) → String → β → List (String × β)
  | [], k, v => [(k, v)]
  | (k1, v1) :: rest, k, v =>
    if k1 = k then (k, v) :: rest else (k1, v1) :: setAssoc rest k v

/-- Update the value stored under an existing key in place. -/
def modifyAssoc {β : Type} : List (String × β) → String → (β → β) → List (String × β)
  | [], _, _ => []
  | (k1, v) :: rest, k, f =>
    if k1 = k then (k1, f v) :: rest else (k1, v) :: modifyAssoc rest k f

/-- Python set.add on a duplicate-free list. -/
def setAdd (l : List String) (x : String) : List String :=
  if x ∈ l then l else l ++ [x]

/-! ## Metadata parser (InputParser._parse_metadata, parser.py 104-145) -/

/-- Pieces of one key=value token: the token split on every equals sign,
exactly as metadata.split('=') does at parser.py line 111. -/
def eqPieces (t : List Char) : List String :=
  (splitFull (fun c => c == '=') t).map (fun p => String.mk p)

/-- The dict(...) call at parser.py line 111: builds a mapping with
last-occurrence-wins overwrite, failing on the first element that does
not have exactly two pieces, with that element index and length. -/
def dictBuild : List (List String) → List (String × String) → Nat →
    Except ParseError (List (String × String))
  | [], acc, _ => .ok acc
  | [k, v] :: rest, acc, i => dictBuild rest (setAssoc acc k v) (i + 1)
  | e :: _, _, i => .error (.dictBadElement i e.length)

/-- Allowed keys of the zone metadata context (parser.py lines 54-57). -/
def zoneAllowed : List String := ["zone", "color", "max_drones"]

/-- Allowed key of the connection metadata context (parser.py lines 60-61). -/
def connAllowed : List String := ["max_link_capacity"]

/-- Body of the per-key loop of _parse_metadata in zone context
(parser.py lines 122-140).  Because the keys coming out of dict() are
unique and every allowed key maps to one dataclass field, folding the
field updates over a default record is ZoneMetadata(**parsed_clean). -/
def applyZonePair (m : ZoneMetadata) (kv : String × String) :
    Except ParseError ZoneMetadata :=
  if ¬ (kv.1 ∈ zoneAllowed) then .error (.invalidKey kv.1 zoneAllowed)
  else if kv.1 = "max_drones" then
    match pyIntChars kv.2.toList with
    | some v =>
      if v ≤ 0 then .error (.mustBeInteger kv.1 kv.2)
      else .ok { m with max_drones := v }
    | none => .error (.mustBeInteger kv.1 kv.2)
  else if kv.1 = "zone" then
    match zoneTypeOfString kv.2 with
    | some zt => .ok { m with zone := zt }
    | none => .error (.invalidZoneType kv.2)
  else .ok { m with color := some kv.2 }

/-- Body of the per-key loop of _parse_metadata in connection context
(parser.py lines 122-136). -/
def applyConnPair (m : ConnectionMetadata) (kv : String × String) :
    Except ParseError ConnectionMetadata :=
  if ¬ (kv.1 ∈ connAllowed) then .error (.invalidKey kv.1 connAllowed)
  else
    match pyIntChars kv.2.toList with
    | some v =>
      if v ≤ 0 then .error (.mustBeInteger kv.1 kv.2)
      else .ok { m with max_link_capacity := v }
    | none => .error (.mustBeInteger kv.1 kv.2)

/-- Error-propagating fold for the per-key loop. -/
def foldPairs {α : Type} (f : α → String × String → Except ParseError α) :
    List (String × String) → α → Except ParseError α
  | [], a => .ok a
  | kv :: rest, a =>
    match f a kv with
    | .error e => .error e
    | .ok a2 => foldPairs f rest a2

/-- _parse_metadata with is_connection=False (parser.py 104-145). -/
def parseZoneMeta (metadata : String) : Except ParseError ZoneMetadata :=
  if metadata.toList.isEmpty then .ok {}
  else
    match dictBuild ((pyTokens metadata.toList).map eqPieces) [] 0 with
    | .error e => .error e
    | .ok d => foldPairs applyZonePair d {}

/-- _parse_metadata with is_connection=True (parser.py 104-145). -/
def parseConnMeta (metadata : String) : Except ParseError ConnectionMetadata :=
  if metadata.toList.isEmpty then .ok {}
  else
    match dictBuild ((pyTokens metadata.toList).map eqPieces) [] 0 with
    | .error e => .error e
    | .ok d => foldPairs applyConnPair d {}

/-! ## Line matchers (the two re.match patterns, parser.py 155-160) -/

/-- Captured groups of the hub pattern. -/
structure HubMatch where
  hub_type : String
  name : String
  x : Int
  y : Int
  metadata : String
deriving DecidableEq, Repr

/-- Captured groups of the connection pattern. -/
structure ConnMatch where
  hub_one : String
  hub_two : String
  metadata : String
deriving DecidableEq, Repr

/-- The keyword alternation (start_hub|end_hub|hub) followed by the
colon, tried in the order the pattern lists the alternatives. -/
def matchKw (cs : List Char) : Option (String × List Char) :=
  match chopLit "start_hub:".toList cs with
  | some r => some ("start_hub", r)
  | none =>
    match chopLit "end_hub:".toList cs with
    | some r => some ("end_hub", r)
    | none =>
      match chopLit "hub:".toList cs with
      | some r => some ("hub", r)
      | none => none

/-- One-or-more whitespace. -/
def matchWs1 : List Char → Option (List Char)
  | [] => none
  | c :: cs => if isWS c then some (cs.dropWhile isWS) else none

/-- One-or-more word characters, maximal munch. -/
def matchWord (cs : List Char) : Option (List Char × List Char) :=
  match cs with
  | [] => none
  | c :: _ =>
    if isWordChar c then some (cs.takeWhile isWordChar, cs.dropWhile isWordChar)
    else none

/-- An optionally negated integer token, maximal munch.  When the
leading character is the minus sign the digits must follow it;
otherwise the token is the leading digit run itself (re backtracking
over the optional sign cannot succeed when neither case matches,
because the minus sign is not a digit). -/
def matchInt (cs : List Char) : Option (Int × List Char) :=
  match cs with
  | [] => none
  | c :: rest =>
    if c = '-' then
      if rest.takeWhile Char.isDigit = [] then none
      else some (-(digitsVal (rest.takeWhile Char.isDigit) : Int),
                 rest.dropWhile Char.isDigit)
    else
      if cs.takeWhile Char.isDigit = [] then none
      else some ((digitsVal (cs.takeWhile Char.isDigit) : Int),
                 cs.dropWhile Char.isDigit)

/-- The optional bracketed metadata group.  Returns the captured
fragment, or the empty list when the optional group matches nothing;
whatever follows the match is ignored, as re.match only anchors the
start of the pattern. -/
def matchMeta (cs : List Char) : List Char :=
  match cs.dropWhile isWS with
  | '[' :: rest =>
    let content := rest.takeWhile (fun c => c != ']')
    let after := rest.dropWhile (fun c => c != ']')
    if content ≠ [] ∧ after ≠ [] then content else []
  | _ => []

/-- re.match of the hub pattern (parser.py lines 155-159), written as
a chain of component matchers, each failure aborting the whole match. -/
def matchHubCore (cs : List Char) : Option HubMatch :=
  (matchKw cs).bind fun kr =>
  (matchWs1 kr.2).bind fun r1 =>
  (matchWord r1).bind fun nr =>
  (matchWs1 nr.2).bind fun r3 =>
  (matchInt r3).bind fun xr =>
  (matchWs1 xr.2).bind fun r5 =>
  (matchInt r5).map fun yr =>
  ⟨kr.1, String.mk nr.1, xr.1, yr.1, String.mk (matchMeta yr.2)⟩

/-- re.match of the connection pattern (parser.py line 160). -/
def matchConnCore (cs : List Char) : Option ConnMatch :=
  (chopLit "connection:".toList cs).bind fun r0 =>
  (matchWs1 r0).bind fun r1 =>
  (matchWord r1).bind fun ar =>
  match ar.2 with
  | '-' :: r3 =>
    (matchWord r3).map fun br =>
      ⟨String.mk ar.1, String.mk br.1, String.mk (matchMeta br.2)⟩
  | _ => none

/-- Hub-pattern match on a whole line. -/
def matchHub (l : String) : Option HubMatch := matchHubCore l.toList

/-- Connection-pattern match on a whole line. -/
def matchConnection (l : String) : Option ConnMatch := matchConnCore l.toList

/-! ## Graph assembler (InputParser.parse_input, parser.py 154-214) -/

/-- The blank-line test: not line.strip() is true exactly when every
character is whitespace. -/
def isBlankLine (l : String) : Bool := l.toList.all isWS

/-- line.startswith(pre). -/
def startsWithStr (pre l : String) : Bool := (chopLit pre.toList l.toList).isSome

/-- The value part of an nb_drones line:
line.split(':')[1].strip() (parser.py line 167). -/
def nbValue (l : String) : List Char :=
  trimChars ((splitPred (fun c => c == ':') l.toList).2.headD [])

/-- Membership of an unordered pair in seen_connections: frozenset
equality of two-element sets. -/
def unorderedEq (p q : String × String) : Bool :=
  (p.1 = q.1 ∧ p.2 = q.2) ∨ (p.1 = q.2 ∧ p.2 = q.1)

/-- pair_key in seen_connections (parser.py line 196). -/
def pairSeen (seen : List (String × String)) (a b : String) : Bool :=
  seen.any (fun p => unorderedEq p (a, b))

/-- One iteration of the line loop of parse_input (parser.py 163-209).
The ValueError raised anywhere inside becomes the returned error, which
parse_input re-raises as a ParsingError wrapping the same data. -/
def processLine (st : ParserState) (line : String) : Except ParseError ParserState :=
  if isBlankLine line then .ok st
  else if startsWithStr "#" line then .ok st
  else if startsWithStr "nb_drones:" line then
    match pyIntChars (nbValue line) with
    | none => .error (.intLiteral (String.mk (nbValue line)))
    | some n =>
      if n < 0 then .error (.negativeDrones n)
      else .ok { st with number_of_drones := n }
  else
    match matchHub line with
    | some h =>
      match parseZoneMeta h.metadata with
      | .error e => .error e
      | .ok zm =>
        .ok { st with zones := setAssoc st.zones h.name ⟨h.hub_type, (h.x, h.y), zm⟩ }
    | none =>
      match matchConnection line with
      | some c =>
        if c.hub_one = c.hub_two then .error (.selfConnection c.hub_one c.hub_two)
        else if pairSeen st.seen c.hub_one c.hub_two then
          .error (.duplicateConnection c.hub_one c.hub_two)
        else
          match parseConnMeta c.metadata with
          | .error e => .error e
          | .ok m =>
            .ok { st with
                  seen := (c.hub_one, c.hub_two) :: st.seen,
                  raw_connections :=
                    st.raw_connections ++ [((c.hub_one, c.hub_two), m)] }
      | none => .ok st

/-- The for loop of parse_input over all lines. -/
def runLines : ParserState → List String → Except ParseError ParserState
  | st, [] => .ok st
  | st, l :: ls =>
    match processLine st l with
    | .error e => .error e
    | .ok st2 => runLines st2 ls

/-- Lazily create an adjacency entry with an empty neighbor set
(parser.py lines 218-227). -/
def ensureEntry (c : List (String × AdjacencyEntry)) (k : String) :
    List (String × AdjacencyEntry) :=
  if (getAssoc c k).isSome then c else c ++ [(k, ⟨[], []⟩)]

/-- One iteration of parse_connections: expand one raw connection into
the two symmetric half-edges sharing the same metadata value
(parser.py lines 217-233). -/
def expandOne (c : List (String × AdjacencyEntry))
    (rc : (String × String) × ConnectionMetadata) :
    List (String × AdjacencyEntry) :=
  let c1 := ensureEntry c rc.1.1
  let c2 := ensureEntry c1 rc.1.2
  let c3 := modifyAssoc c2 rc.1.1
    (fun e => ⟨setAdd e.connections rc.1.2, setAssoc e.metadata rc.1.2 rc.2⟩)
  modifyAssoc c3 rc.1.2
    (fun e => ⟨setAdd e.connections rc.1.1, setAssoc e.metadata rc.1.1 rc.2⟩)

/-- parse_input (parser.py 154-214): run every line in order, then, when
any raw connections were collected, run parse_connections once. -/
def parseInput (lines : List String) : Except ParseError ParserState :=
  match runLines initState lines with
  | .error e => .error e
  | .ok st =>
    .ok (if st.raw_connections.isEmpty then st
         else { st with connections := st.raw_connections.foldl expandOne st.connections })

/-- Neighbor set of one zone in the finished adjacency structure. -/
def neighborsOf (c : List (String × AdjacencyEntry)) (a : String) : List String :=
  match getAssoc c a with
  | some e => e.connections
  | none => []

/-- Per-neighbor metadata lookup in the finished adjacency structure. -/
def metaOf (c : List (String × AdjacencyEntry)) (a b : String) :
    Option ConnectionMetadata :=
  match getAssoc c a with
  | some e => getAssoc e.metadata b
  | none => none

/-- The drone-count directive dispatch test of parse_input line 166. -/
def isNbLine (l : String) : Bool := startsWithStr "nb_drones:" l

/-! ## Basic lemmas about the association-list primitives -/

theorem getAssoc_setAssoc {β : Type} (l : List (String × β)) (k k2 : String) (v : β) :
    getAssoc (setAssoc l k v) k2 = if k2 = k then some v else getAssoc l k2 := by
  induction l with
  | nil =>
    by_cases h : k2 = k
    · simp [setAssoc, getAssoc, h]
    · have hs : ¬ k = k2 := fun hh => h hh.symm
      simp [setAssoc, getAssoc, h, hs]
  | cons hd tl ih =>
    obtain ⟨k1, v1⟩ := hd
    by_cases h1 : k1 = k
    · subst h1
      by_cases h2 : k2 = k1
      · simp [setAssoc, getAssoc, h2]
      · have hs : ¬ k1 = k2 := fun hh => h2 hh.symm
        simp [setAssoc, getAssoc, h2, hs]
    · by_cases h2 : k2 = k1
      · subst h2
        simp [setAssoc, getAssoc, h1]
      · have hs : ¬ k1 = k2 := fun hh => h2 hh.symm
        simp [setAssoc, getAssoc, h1, h2, hs, ih]

theorem getAssoc_modifyAssoc {β : Type} (l : List (String × β)) (k k2 : String) (f : β → β) :
    getAssoc (modifyAssoc l k f) k2 =
      if k2 = k then (getAssoc l k).map f else getAssoc l k2 := by
  induction l with
  | nil =>
    by_cases h : k2 = k <;> simp [modifyAssoc, getAssoc, h]
  | cons hd tl ih =>
    obtain ⟨k1, v1⟩ := hd
    by_cases h1 : k1 = k
    · subst h1
      by_cases h2 : k2 = k1
      · simp [modifyAssoc, getAssoc, h2]
      · have hs : ¬ k1 = k2 := fun hh => h2 hh.symm
        simp [modifyAssoc, getAssoc, h2, hs]
    · by_cases h2 : k2 = k1
      · subst h2
        simp [modifyAssoc, getAssoc, h1]
      · have hs : ¬ k1 = k2 := fun hh => h2 hh.symm
        simp [modifyAssoc, getAssoc, h1, h2, hs, ih]

theorem getAssoc_append {β : Type} (l1 l2 : List (String × β)) (k : String) :
    getAssoc (l1 ++ l2) k =
      match getAssoc l1 k with
      | some v => some v
      | none => getAssoc l2 k := by
  induction l1 with
  | nil => simp [getAssoc]
  | cons hd tl ih =>
    obtain ⟨k1, v1⟩ := hd
    by_cases h : k1 = k <;> simp [getAssoc, h, ih]

theorem mem_setAdd (l : List String) (x y : String) :
    y ∈ setAdd l x ↔ y ∈ l ∨ y = x := by
  unfold setAdd
  by_cases hx : x ∈ l
  · simp only [if_pos hx]
    constructor
    · exact fun hy => Or.inl hy
    · rintro (hy | rfl) <;> assumption
  · simp [if_neg hx]

theorem mem_setAssoc {β : Type} (l : List (String × β)) (k : String) (v : β)
    (p : String × β) (hp : p ∈ setAssoc l k v) : p ∈ l ∨ p = (k, v) := by
  induction l with
  | nil => simpa [setAssoc] using hp
  | cons hd tl ih =>
    obtain ⟨k1, v1⟩ := hd
    by_cases hk : k1 = k
    · subst hk
      simp only [setAssoc, if_pos] at hp
      simp only [List.mem_cons] at hp
      rcases hp with hp1 | hp1
      · exact Or.inr hp1
      · exact Or.inl (List.mem_cons_of_mem _ hp1)
    · simp only [setAssoc, if_neg hk, List.mem_cons] at hp
      rcases hp with hp1 | hp1
      · exact Or.inl (by simp [hp1])
      · rcases ih hp1 with hp2 | hp2
        · exact Or.inl (List.mem_cons_of_mem _ hp2)
        · exact Or.inr hp2

/-! ## Structure of runLines -/

theorem runLines_append (st : ParserState) (ls1 ls2 : List String) :
    runLines st (ls1 ++ ls2) =
      match runLines st ls1 with
      | .error e => .error e
      | .ok st1 => runLines st1 ls2 := by
  induction ls1 generalizing st with
  | nil => simp [runLines]
  | cons l ls ih =>
    simp only [List.cons_append, runLines]
    cases processLine st l with
    | error e => rfl
    | ok st2 => exact ih st2

/-- Decidable equality of parse results, used to evaluate the embedded
parser on concrete inputs. -/
instance {ε α : Type} [DecidableEq ε] [DecidableEq α] : DecidableEq (Except ε α)
  | .error a, .error b =>
    if h : a = b then .isTrue (by rw [h]) else .isFalse (fun hh => h (Except.error.inj hh))
  | .error _, .ok _ => .isFalse (fun hh => Except.noConfusion hh)
  | .ok _, .error _ => .isFalse (fun hh => Except.noConfusion hh)
  | .ok a, .ok b =>
    if h : a = b then .isTrue (by rw [h]) else .isFalse (fun hh => h (Except.ok.inj hh))

/-! ## Shape facts about lines and the dispatch of processLine -/

theorem chopLit_sound (pre : List Char) :
    ∀ cs r, chopLit pre cs = some r → cs = pre ++ r := by
  induction pre with
  | nil =>
    intro cs r h
    simp [chopLit] at h
    simp [h]
  | cons p ps ih =>
    intro cs r h
    cases cs with
    | nil => simp [chopLit] at h
    | cons c cs2 =>
      by_cases hc : c = p
      · subst hc
        simp only [chopLit, if_pos rfl] at h
        simpa using ih cs2 r h
      · simp [chopLit, hc] at h

theorem startsWithStr_toList (pre l : String) (h : startsWithStr pre l = true) :
    ∃ r, l.toList = pre.toList ++ r := by
  unfold startsWithStr at h
  cases hc : chopLit pre.toList l.toList with
  | none => rw [hc] at h; simp at h
  | some r => exact ⟨r, chopLit_sound _ _ _ hc⟩

theorem isBlankLine_false_of_head (l : String) (c : Char) (t : List Char)
    (hl : l.toList = c :: t) (hc : isWS c = false) : isBlankLine l = false := by
  have hd : l.data = c :: t := hl
  simp only [isBlankLine, String.toList, hd, List.all_cons, hc, Bool.false_and]

theorem startsWithStr_false_of_head (pre l : String) (p c : Char) (tp t : List Char)
    (hpre : pre.toList = p :: tp) (hl : l.toList = c :: t) (hne : c ≠ p) :
    startsWithStr pre l = false := by
  have hdp : pre.data = p :: tp := hpre
  have hd : l.data = c :: t := hl
  simp [startsWithStr, String.toList, hdp, hd, chopLit, hne]

theorem matchHub_none_of_head (l : String) (c : Char) (t : List Char)
    (hl : l.toList = c :: t) (h1 : c ≠ 's') (h2 : c ≠ 'e') (h3 : c ≠ 'h') :
    matchHub l = none := by
  have hd : l.data = c :: t := hl
  have hcs : chopLit "start_hub:".toList l.data = none := by
    simp [show "start_hub:".toList = 's' :: "tart_hub:".toList from rfl, hd, chopLit, h1]
  have hce : chopLit "end_hub:".toList l.data = none := by
    simp [show "end_hub:".toList = 'e' :: "nd_hub:".toList from rfl, hd, chopLit, h2]
  have hch : chopLit "hub:".toList l.data = none := by
    simp [show "hub:".toList = 'h' :: "ub:".toList from rfl, hd, chopLit, h3]
  unfold matchHub matchHubCore matchKw
  rw [show l.toList = l.data from rfl, hcs, hce, hch]
  rfl

/-- A line whose connection-pattern match succeeds begins with the
literal word connection and the colon. -/
theorem matchConnection_head (l : String) (c : ConnMatch)
    (h : matchConnection l = some c) : ∃ r, l.toList = "connection:".toList ++ r := by
  unfold matchConnection matchConnCore at h
  cases hc : chopLit "connection:".toList l.toList with
  | none => rw [hc] at h; simp at h
  | some r => exact ⟨r, chopLit_sound _ _ _ hc⟩

/-- On a line matched by the connection pattern, processLine runs
exactly the connection branch of parse_input (parser.py 187-209). -/
theorem processLine_conn_branch (st : ParserState) (l : String) (c : ConnMatch)
    (h : matchConnection l = some c) :
    processLine st l =
      (if c.hub_one = c.hub_two then .error (.selfConnection c.hub_one c.hub_two)
       else if pairSeen st.seen c.hub_one c.hub_two then
         .error (.duplicateConnection c.hub_one c.hub_two)
       else
         match parseConnMeta c.metadata with
         | .error e => .error e
         | .ok m =>
           .ok { st with
                 seen := (c.hub_one, c.hub_two) :: st.seen,
                 raw_connections :=
                   st.raw_connections ++ [((c.hub_one, c.hub_two), m)] }) := by
  obtain ⟨r, hr⟩ := matchConnection_head l c h
  have hr2 : l.toList = 'c' :: ("onnection:".toList ++ r) := by
    rw [hr]; rfl
  have hblank : isBlankLine l = false :=
    isBlankLine_false_of_head l 'c' _ hr2 (by decide)
  have hcomment : startsWithStr "#" l = false :=
    startsWithStr_false_of_head "#" l '#' 'c' [] _ rfl hr2 (by decide)
  have hnb : startsWithStr "nb_drones:" l = false :=
    startsWithStr_false_of_head "nb_drones:" l 'n' 'c' _ _ rfl hr2 (by decide)
  have hhub : matchHub l = none :=
    matchHub_none_of_head l 'c' _ hr2 (by decide) (by decide) (by decide)
  unfold processLine
  rw [hblank, hcomment, hnb, hhub, h]
  simp

/-- A line matched by the hub pattern begins with the first letter of
one of the three hub keywords. -/
theorem matchHub_head (l : String) (h : HubMatch) (hm : matchHub l = some h) :
    ∃ c t, l.toList = c :: t ∧ (c = 's' ∨ c = 'e' ∨ c = 'h') := by
  unfold matchHub matchHubCore matchKw at hm
  cases hcs : chopLit "start_hub:".toList l.toList with
  | some r =>
    have := chopLit_sound _ _ _ hcs
    exact ⟨'s', _, by rw [this]; rfl, Or.inl rfl⟩
  | none =>
    rw [hcs] at hm
    cases hce : chopLit "end_hub:".toList l.toList with
    | some r =>
      have := chopLit_sound _ _ _ hce
      exact ⟨'e', _, by rw [this]; rfl, Or.inr (Or.inl rfl)⟩
    | none =>
      rw [hce] at hm
      cases hch : chopLit "hub:".toList l.toList with
      | some r =>
        have := chopLit_sound _ _ _ hch
        exact ⟨'h', _, by rw [this]; rfl, Or.inr (Or.inr rfl)⟩
      | none => rw [hch] at hm; simp at hm

/-- On a line matched by the hub pattern, processLine runs exactly the
zone-declaration branch of parse_input (parser.py 174-185). -/
theorem processLine_hub_branch (st : ParserState) (l : String) (h : HubMatch)
    (hm : matchHub l = some h) :
    processLine st l =
      (match parseZoneMeta h.metadata with
       | .error e => .error e
       | .ok zm =>
         .ok { st with zones := setAssoc st.zones h.name ⟨h.hub_type, (h.x, h.y), zm⟩ }) := by
  obtain ⟨c, t, hl, hc⟩ := matchHub_head l h hm
  have hblank : isBlankLine l = false := by
    apply isBlankLine_false_of_head l c t hl
    rcases hc with rfl | rfl | rfl <;> decide
  have hcomment : startsWithStr "#" l = false := by
    apply startsWithStr_false_of_head "#" l '#' c [] t rfl hl
    rcases hc with rfl | rfl | rfl <;> decide
  have hnb : startsWithStr "nb_drones:" l = false := by
    apply startsWithStr_false_of_head "nb_drones:" l 'n' c _ t rfl hl
    rcases hc with rfl | rfl | rfl <;> decide
  unfold processLine
  rw [hblank, hcomment, hnb, hm]
  simp

/-- On a line that starts with the drone-count prefix, processLine runs
exactly the nb_drones branch of parse_input (parser.py 166-172). -/
theorem processLine_nb_branch (st : ParserState) (l : String)
    (hnb : startsWithStr "nb_drones:" l = true) :
    processLine st l =
      (match pyIntChars (nbValue l) with
       | none => .error (.intLiteral (String.mk (nbValue l)))
       | some n =>
         if n < 0 then .error (.negativeDrones n)
         else .ok { st with number_of_drones := n }) := by
  obtain ⟨r, hr⟩ := startsWithStr_toList "nb_drones:" l hnb
  have hr2 : l.toList = 'n' :: ("b_drones:".toList ++ r) := by rw [hr]; rfl
  have hblank : isBlankLine l = false :=
    isBlankLine_false_of_head l 'n' _ hr2 (by decide)
  have hcomment : startsWithStr "#" l = false :=
    startsWithStr_false_of_head "#" l '#' 'n' [] _ rfl hr2 (by decide)
  unfold processLine
  rw [hblank, hcomment, hnb]
  simp

/-! ## Preservation facts of one processLine step -/

theorem processLine_connections (st : ParserState) (l : String) (st2 : ParserState)
    (h : processLine st l = .ok st2) : st2.connections = st.connections := by
  unfold processLine at h
  repeat' split at h
  all_goals (first
    | (simp only [Except.ok.injEq] at h; subst h; rfl)
    | simp at h)

theorem processLine_seen_mono (st : ParserState) (l : String) (st2 : ParserState)
    (h : processLine st l = .ok st2) (p : String × String) (hp : p ∈ st.seen) :
    p ∈ st2.seen := by
  unfold processLine at h
  repeat' split at h
  all_goals (first
    | (simp only [Except.ok.injEq] at h; subst h; simp [hp])
    | simp at h)

theorem processLine_cases (st : ParserState) (l : String) (st2 : ParserState)
    (h : processLine st l = .ok st2) :
    st2 = st ∨
    (∃ n, 0 ≤ n ∧ startsWithStr "nb_drones:" l = true ∧
      st2 = { st with number_of_drones := n }) ∨
    (∃ name z, st2 = { st with zones := setAssoc st.zones name z }) ∨
    (∃ a b m, a ≠ b ∧
      st2 = { st with
              seen := (a, b) :: st.seen,
              raw_connections := st.raw_connections ++ [((a, b), m)] }) := by
  unfold processLine at h
  repeat' split at h
  all_goals first
    | (simp only [Except.ok.injEq] at h; subst h;
       first
         | exact Or.inl rfl
         | exact Or.inr (Or.inr (Or.inl ⟨_, _, rfl⟩))
         | exact Or.inr (Or.inl ⟨_, by omega, by assumption, rfl⟩)
         | exact Or.inr (Or.inr (Or.inr ⟨_, _, _, by assumption, rfl⟩)))
    | simp at h

theorem processLine_drones_of_not_nb (st : ParserState) (l : String) (st2 : ParserState)
    (hnb : startsWithStr "nb_drones:" l = false)
    (h : processLine st l = .ok st2) : st2.number_of_drones = st.number_of_drones := by
  rcases processLine_cases st l st2 h with rfl | ⟨n, _, hnb2, rfl⟩ | ⟨name, z, rfl⟩ | ⟨a, b, m, _, rfl⟩
  · rfl
  · rw [hnb] at hnb2; exact absurd hnb2 (by simp)
  · rfl
  · rfl

/-- Every raw connection ever appended has distinct endpoints, because
the self-connection check precedes the append (parser.py 191-209). -/
theorem processLine_rawOK (st : ParserState) (l : String) (st2 : ParserState)
    (h : processLine st l = .ok st2)
    (hinv : ∀ p ∈ st.raw_connections, p.1.1 ≠ p.1.2) :
    ∀ p ∈ st2.raw_connections, p.1.1 ≠ p.1.2 := by
  rcases processLine_cases st l st2 h with rfl | ⟨n, _, _, rfl⟩ | ⟨name, z, rfl⟩ | ⟨a, b, m, hab, rfl⟩
  · exact hinv
  · exact hinv
  · exact hinv
  · intro p hp
    simp only [List.mem_append, List.mem_singleton] at hp
    rcases hp with hp | rfl
    · exact hinv p hp
    · exact hab

/-! ## Invariants carried through the whole line loop -/

theorem runLines_connections (st : ParserState) (ls : List String) (st2 : ParserState)
    (h : runLines st ls = .ok st2) : st2.connections = st.connections := by
  induction ls generalizing st with
  | nil =>
    unfold runLines at h
    cases h
    rfl
  | cons l ls ih =>
    unfold runLines at h
    cases hp : processLine st l with
    | error e => rw [hp] at h; simp at h
    | ok st1 =>
      rw [hp] at h
      rw [ih st1 h, processLine_connections st l st1 hp]

theorem runLines_seen_mono (st : ParserState) (ls : List String) (st2 : ParserState)
    (h : runLines st ls = .ok st2) (p : String × String) (hp : p ∈ st.seen) :
    p ∈ st2.seen := by
  induction ls generalizing st with
  | nil =>
    unfold runLines at h
    cases h
    exact hp
  | cons l ls ih =>
    unfold runLines at h
    cases hq : processLine st l with
    | error e => rw [hq] at h; simp at h
    | ok st1 =>
      rw [hq] at h
      exact ih st1 h (processLine_seen_mono st l st1 hq p hp)

theorem runLines_rawOK (st : ParserState) (ls : List String) (st2 : ParserState)
    (h : runLines st ls = .ok st2)
    (hinv : ∀ p ∈ st.raw_connections, p.1.1 ≠ p.1.2) :
    ∀ p ∈ st2.raw_connections, p.1.1 ≠ p.1.2 := by
  induction ls generalizing st with
  | nil =>
    unfold runLines at h
    cases h
    exact hinv
  | cons l ls ih =>
    unfold runLines at h
    cases hq : processLine st l with
    | error e => rw [hq] at h; simp at h
    | ok st1 =>
      rw [hq] at h
      exact ih st1 h (processLine_rawOK st l st1 hq hinv)

/-- A successful step over an nb_drones line stores exactly the parsed
non-negative value as the drone count. -/
theorem processLine_nb_ok (st : ParserState) (l : String) (st2 : ParserState)
    (hnb : isNbLine l = true) (h : processLine st l = .ok st2) :
    ∃ n, pyIntChars (nbValue l) = some n ∧ ¬ n < 0 ∧
      st2 = { st with number_of_drones := n } := by
  rw [processLine_nb_branch st l hnb] at h
  cases hpi : pyIntChars (nbValue l) with
  | none => rw [hpi] at h; simp at h
  | some n =>
    rw [hpi] at h
    by_cases hneg : n < 0
    · simp [hneg] at h
    · refine ⟨n, rfl, hneg, ?_⟩
      simp only [if_neg hneg, Except.ok.injEq] at h
      exact h.symm

/-- The drone count after a successful run is the last value written by
an nb_drones line, or the starting value when there is none. -/
theorem runLines_drones (st : ParserState) (ls : List String) (st2 : ParserState)
    (h : runLines st ls = .ok st2) :
    st2.number_of_drones =
      ls.foldl (fun a l => if isNbLine l then (pyIntChars (nbValue l)).getD 0 else a)
        st.number_of_drones := by
  induction ls generalizing st with
  | nil =>
    unfold runLines at h
    cases h
    rfl
  | cons l ls ih =>
    unfold runLines at h
    cases hq : processLine st l with
    | error e => rw [hq] at h; simp at h
    | ok st1 =>
      rw [hq] at h
      rw [List.foldl_cons, ih st1 h]
      by_cases hnb : isNbLine l
      · obtain ⟨n, hpi, hneg, rfl⟩ := processLine_nb_ok st l st1 hnb hq
        simp [hnb, hpi]
      · have hd := processLine_drones_of_not_nb st l st1 (by simpa [isNbLine] using hnb) hq
        simp [hnb, hd]

/-- On a successful step over a connection-matched line, the endpoints
were distinct and the pair is recorded in seen_connections. -/
theorem processLine_conn_ok (st : ParserState) (l : String) (c : ConnMatch)
    (st2 : ParserState) (hm : matchConnection l = some c)
    (h : processLine st l = .ok st2) :
    c.hub_one ≠ c.hub_two ∧ (c.hub_one, c.hub_two) ∈ st2.seen := by
  rw [processLine_conn_branch st l c hm] at h
  by_cases he : c.hub_one = c.hub_two
  · rw [if_pos he] at h; simp at h
  · rw [if_neg he] at h
    by_cases hs : pairSeen st.seen c.hub_one c.hub_two
    · rw [if_pos hs] at h; simp at h
    · rw [if_neg hs] at h
      cases hpm : parseConnMeta c.metadata with
      | error e => rw [hpm] at h; simp at h
      | ok m =>
        rw [hpm] at h
        simp only [Except.ok.injEq] at h
        subst h
        exact ⟨he, List.mem_cons_self _ _⟩

/-! ## Pointwise description of the symmetric expansion -/

theorem getAssoc_ensureEntry (c : List (String × AdjacencyEntry)) (k k2 : String) :
    getAssoc (ensureEntry c k) k2 =
      if k2 = k then some ((getAssoc c k).getD ⟨[], []⟩) else getAssoc c k2 := by
  unfold ensureEntry
  by_cases hs : (getAssoc c k).isSome = true
  · obtain ⟨e, he⟩ := Option.isSome_iff_exists.mp hs
    rw [if_pos hs]
    by_cases hk : k2 = k
    · subst hk; simp [he]
    · simp [hk]
  · have hn : getAssoc c k = none := Option.not_isSome_iff_eq_none.mp hs
    rw [if_neg hs, getAssoc_append]
    by_cases hk : k2 = k
    · subst hk
      simp [hn, getAssoc]
    · rw [if_neg hk]
      cases hg : getAssoc c k2 with
      | some v => rfl
      | none => simp [getAssoc, Ne.symm hk]

/-- The entry table after expanding one raw connection with distinct
endpoints, described pointwise. -/
theorem getAssoc_expandOne (c : List (String × AdjacencyEntry)) (x y : String)
    (m : ConnectionMetadata) (hne : x ≠ y) (w : String) :
    getAssoc (expandOne c ((x, y), m)) w =
      if w = y then
        some ⟨setAdd ((getAssoc c y).getD ⟨[], []⟩).connections x,
              setAssoc ((getAssoc c y).getD ⟨[], []⟩).metadata x m⟩
      else if w = x then
        some ⟨setAdd ((getAssoc c x).getD ⟨[], []⟩).connections y,
              setAssoc ((getAssoc c x).getD ⟨[], []⟩).metadata y m⟩
      else getAssoc c w := by
  have hyx : ¬ y = x := fun hh => hne hh.symm
  unfold expandOne
  simp only [getAssoc_modifyAssoc, getAssoc_ensureEntry]
  by_cases hwy : w = y
  · simp [hwy, hyx]
  · by_cases hwx : w = x
    · simp [hwy, hwx, hyx, hne]
    · simp [hwy, hwx]

theorem entry_connections (c : List (String × AdjacencyEntry)) (w : String) :
    ((getAssoc c w).getD ⟨[], []⟩).connections = neighborsOf c w := by
  cases h : getAssoc c w <;> simp [neighborsOf, h]

theorem entry_metadata (c : List (String × AdjacencyEntry)) (w b : String) :
    getAssoc ((getAssoc c w).getD ⟨[], []⟩).metadata b = metaOf c w b := by
  cases h : getAssoc c w <;> simp [metaOf, h, getAssoc]

theorem neighborsOf_expandOne (c : List (String × AdjacencyEntry)) (x y : String)
    (m : ConnectionMetadata) (hne : x ≠ y) (z : String) :
    neighborsOf (expandOne c ((x, y), m)) z =
      if z = x then setAdd (neighborsOf c z) y
      else if z = y then setAdd (neighborsOf c z) x
      else neighborsOf c z := by
  have hyx : ¬ y = x := fun hh => hne hh.symm
  unfold neighborsOf
  rw [getAssoc_expandOne c x y m hne z]
  by_cases hzy : z = y
  · simp [hzy, hyx, entry_connections, neighborsOf]
  · by_cases hzx : z = x
    · simp [hzy, hzx, hne, entry_connections, neighborsOf]
    · simp [hzy, hzx]

theorem metaOf_expandOne (c : List (String × AdjacencyEntry)) (x y : String)
    (m : ConnectionMetadata) (hne : x ≠ y) (a b : String) :
    metaOf (expandOne c ((x, y), m)) a b =
      if a = x ∧ b = y then some m
      else if a = y ∧ b = x then some m
      else metaOf c a b := by
  have hyx : ¬ y = x := fun hh => hne hh.symm
  unfold metaOf
  rw [getAssoc_expandOne c x y m hne a]
  by_cases hay : a = y
  · simp [hay, hyx, getAssoc_setAssoc, entry_metadata, metaOf]
  · by_cases hax : a = x
    · simp [hay, hax, hne, getAssoc_setAssoc, entry_metadata, metaOf]
    · simp [hay, hax, metaOf]

/-- Membership in a neighbor set after one expansion step. -/
theorem mem_neighborsOf_expandOne (c : List (String × AdjacencyEntry)) (x y : String)
    (m : ConnectionMetadata) (hne : x ≠ y) (a b : String) :
    b ∈ neighborsOf (expandOne c ((x, y), m)) a ↔
      (b ∈ neighborsOf c a ∨ (a = x ∧ b = y) ∨ (a = y ∧ b = x)) := by
  have hyx : ¬ y = x := fun hh => hne hh.symm
  rw [neighborsOf_expandOne c x y m hne a]
  by_cases hax : a = x
  · simp [hax, hne, mem_setAdd]
  · by_cases hay : a = y
    · simp [hax, hay, hyx, mem_setAdd]
    · simp [hax, hay]

/-- Symmetry of the adjacency structure is preserved by the whole
expansion fold, for raw lists whose pairs have distinct endpoints. -/
theorem foldl_expandOne_sym (raw : List ((String × String) × ConnectionMetadata))
    (c : List (String × AdjacencyEntry))
    (hraw : ∀ p ∈ raw, p.1.1 ≠ p.1.2)
    (hsym : ∀ a b, (b ∈ neighborsOf c a ↔ a ∈ neighborsOf c b) ∧
      metaOf c a b = metaOf c b a) :
    ∀ a b, (b ∈ neighborsOf (raw.foldl expandOne c) a ↔
            a ∈ neighborsOf (raw.foldl expandOne c) b) ∧
      metaOf (raw.foldl expandOne c) a b = metaOf (raw.foldl expandOne c) b a := by
  induction raw generalizing c with
  | nil => exact hsym
  | cons rc rest ih =>
    obtain ⟨⟨x, y⟩, m⟩ := rc
    have hne : x ≠ y := hraw _ (List.mem_cons_self _ _)
    have hyx : ¬ y = x := fun hh => hne hh.symm
    rw [List.foldl_cons]
    apply ih
    · intro p hp
      exact hraw p (List.mem_cons_of_mem _ hp)
    · intro a b
      constructor
      · rw [mem_neighborsOf_expandOne c x y m hne a b,
            mem_neighborsOf_expandOne c x y m hne b a]
        have hiff := (hsym a b).1
        constructor
        · rintro (hmm | ⟨rfl, rfl⟩ | ⟨rfl, rfl⟩)
          · exact Or.inl (hiff.mp hmm)
          · exact Or.inr (Or.inr ⟨rfl, rfl⟩)
          · exact Or.inr (Or.inl ⟨rfl, rfl⟩)
        · rintro (hmm | ⟨rfl, rfl⟩ | ⟨rfl, rfl⟩)
          · exact Or.inl (hiff.mpr hmm)
          · exact Or.inr (Or.inr ⟨rfl, rfl⟩)
          · exact Or.inr (Or.inl ⟨rfl, rfl⟩)
      · rw [metaOf_expandOne c x y m hne a b, metaOf_expandOne c x y m hne b a]
        by_cases h1 : a = x ∧ b = y
        · obtain ⟨rfl, rfl⟩ := h1
          simp [hne, hyx]
        · by_cases h2 : a = y ∧ b = x
          · obtain ⟨rfl, rfl⟩ := h2
            simp [hne, hyx]
          · have h1s : ¬ (b = x ∧ a = y) := fun hh => h2 ⟨hh.2, hh.1⟩
            have h2s : ¬ (b = y ∧ a = x) := fun hh => h1 ⟨hh.2, hh.1⟩
            simp [h1, h2, h1s, h2s, (hsym a b).2]

/-- The expansion fold never creates a self-loop, for raw lists whose
pairs have distinct endpoints. -/
theorem foldl_expandOne_noSelf (raw : List ((String × String) × ConnectionMetadata))
    (c : List (String × AdjacencyEntry))
    (hraw : ∀ p ∈ raw, p.1.1 ≠ p.1.2)
    (hself : ∀ a, a ∉ neighborsOf c a) :
    ∀ a, a ∉ neighborsOf (raw.foldl expandOne c) a := by
  induction raw generalizing c with
  | nil => exact hself
  | cons rc rest ih =>
    obtain ⟨⟨x, y⟩, m⟩ := rc
    have hne : x ≠ y := hraw _ (List.mem_cons_self _ _)
    rw [List.foldl_cons]
    apply ih
    · intro p hp
      exact hraw p (List.mem_cons_of_mem _ hp)
    · intro a ha
      rw [mem_neighborsOf_expandOne c x y m hne a a] at ha
      rcases ha with ha | ⟨rfl, rfl⟩ | ⟨rfl, rfl⟩
      · exact hself a ha
      · exact hne rfl
      · exact hne rfl

/-! ## Destructuring parseInput -/

theorem parseInput_error (lines : List String) (e : ParseError)
    (h : runLines initState lines = .error e) : parseInput lines = .error e := by
  unfold parseInput
  rw [h]

theorem parseInput_ok_elim (lines : List String) (st : ParserState)
    (h : parseInput lines = .ok st) :
    ∃ st0, runLines initState lines = .ok st0 ∧
      st.zones = st0.zones ∧ st.raw_connections = st0.raw_connections ∧
      st.seen = st0.seen ∧ st.number_of_drones = st0.number_of_drones ∧
      st.connections = st0.raw_connections.foldl expandOne [] := by
  unfold parseInput at h
  cases hr : runLines initState lines with
  | error e => rw [hr] at h; simp at h
  | ok st0 =>
    rw [hr] at h
    simp only [Except.ok.injEq] at h
    subst h
    have hc0 : st0.connections = [] := runLines_connections initState lines st0 hr
    refine ⟨st0, rfl, ?_⟩
    by_cases hraw : st0.raw_connections.isEmpty
    · have hr0 : st0.raw_connections = [] := by
        cases hv : st0.raw_connections
        · rfl
        · rw [hv] at hraw; simp at hraw
      simp [hraw, hr0, hc0]
    · simp [hraw, hc0]

/-- Generic description of a fold that keeps the value of the last
element satisfying a test. -/
theorem foldl_if_last {α β : Type} (p : α → Bool) (f : α → β) (ls : List α) (a : β) :
    ls.foldl (fun acc l => if p l then f l else acc) a =
      match (ls.filter p).getLast? with
      | some l => f l
      | none => a := by
  induction ls using List.reverseRecOn generalizing a with
  | nil => rfl
  | append_singleton xs x ih =>
    rw [List.foldl_append, List.filter_append]
    by_cases hp : p x
    · simp [hp, List.getLast?_concat]
    · simp [hp, ih]

/-! ## Claim theorems -/

/-- Claim C3 (amended): every line that does not start with the
nb_drones: prefix and matches neither the hub pattern nor the
connection pattern is silently ignored: processing it succeeds and
leaves the parser state unchanged.  (The original claim is refuted by
C3_counterexample: a line that starts with nb_drones: but carries a
non-integer value matches no recognized pattern yet raises.) -/
theorem C3_unmatched_lines_ignored (st : ParserState) (line : String)
    (hnb : startsWithStr "nb_drones:" line = false)
    (hhub : matchHub line = none)
    (hconn : matchConnection line = none) :
    processLine st line = .ok st := by
  simp [processLine, hnb, hhub, hconn]

/-- Claim C3, counterexample to the original statement: the line
nb_drones: abc is not blank, not a comment, and matches none of the
recognized patterns (it is not a drone-count directive, since its value
part is not an integer), yet parse_input raises the int() ValueError on
it instead of ignoring it. -/
theorem C3_counterexample :
    isBlankLine "nb_drones: abc" = false ∧
    startsWithStr "#" "nb_drones: abc" = false ∧
    matchHub "nb_drones: abc" = none ∧
    matchConnection "nb_drones: abc" = none ∧
    pyIntChars (nbValue "nb_drones: abc") = none ∧
    parseInput ["nb_drones: abc"] = .error (.intLiteral "abc") := by
  refine ⟨by decide, by decide, by decide, by decide, by decide, by decide⟩

/-- Claim C3, witness for the amended theorem at a concrete junk line. -/
theorem C3_witness : processLine initState "total junk line" = .ok initState :=
  C3_unmatched_lines_ignored initState "total junk line" (by decide) (by decide) (by decide)

/-- Claim C4: in every successfully parsed input the adjacency
structure is symmetric: whenever b is in the neighbor set of a, a is in
the neighbor set of b, and the per-neighbor metadata stored on the two
sides is the same value. -/
theorem C4_symmetric_adjacency (lines : List String) (st : ParserState)
    (h : parseInput lines = .ok st) (a b : String)
    (hmem : b ∈ neighborsOf st.connections a) :
    a ∈ neighborsOf st.connections b ∧
      metaOf st.connections a b = metaOf st.connections b a := by
  obtain ⟨st0, hr, _, _, _, _, hconn⟩ := parseInput_ok_elim lines st h
  have hraw : ∀ p ∈ st0.raw_connections, p.1.1 ≠ p.1.2 :=
    runLines_rawOK initState lines st0 hr
      (by intro p hp; simp [initState] at hp)
  have hbase : ∀ a b : String,
      (b ∈ neighborsOf ([] : List (String × AdjacencyEntry)) a ↔
        a ∈ neighborsOf ([] : List (String × AdjacencyEntry)) b) ∧
      metaOf ([] : List (String × AdjacencyEntry)) a b =
        metaOf ([] : List (String × AdjacencyEntry)) b a := by
    intro a b
    constructor <;> simp [neighborsOf, metaOf, getAssoc]
  have hsym := foldl_expandOne_sym st0.raw_connections [] hraw hbase
  rw [hconn] at hmem ⊢
  exact ⟨((hsym a b).1).mp hmem, (hsym a b).2⟩

/-- Claim C4, witness: parsing the single connection a-b and applying
the theorem at the edge from b. -/
theorem C4_witness :
    "b" ∈ neighborsOf
        (ParserState.connections
          ⟨[], [(("a", "b"), ⟨1⟩)],
           [("a", ⟨["b"], [("b", ⟨1⟩)]⟩), ("b", ⟨["a"], [("a", ⟨1⟩)]⟩)],
           [("a", "b")], 0⟩) "a" ∧
      metaOf (ParserState.connections
          ⟨[], [(("a", "b"), ⟨1⟩)],
           [("a", ⟨["b"], [("b", ⟨1⟩)]⟩), ("b", ⟨["a"], [("a", ⟨1⟩)]⟩)],
           [("a", "b")], 0⟩) "b" "a" =
        metaOf (ParserState.connections
          ⟨[], [(("a", "b"), ⟨1⟩)],
           [("a", ⟨["b"], [("b", ⟨1⟩)]⟩), ("b", ⟨["a"], [("a", ⟨1⟩)]⟩)],
           [("a", "b")], 0⟩) "a" "b" :=
  C4_symmetric_adjacency ["connection: a-b"]
    ⟨[], [(("a", "b"), ⟨1⟩)],
     [("a", ⟨["b"], [("b", ⟨1⟩)]⟩), ("b", ⟨["a"], [("a", ⟨1⟩)]⟩)],
     [("a", "b")], 0⟩
    (by decide) "b" "a" (by decide)

/-- Claim C5: an input containing two connection declarations whose
unordered endpoint pairs are equal (in either endpoint order) fails
with the duplicate-connection error naming both names of the second
declaration, provided the lines before the repeat parse successfully. -/
theorem C5_duplicate_connection (pre mid : List String) (l1 l2 : String)
    (c1 c2 : ConnMatch) (st : ParserState)
    (h1 : matchConnection l1 = some c1) (h2 : matchConnection l2 = some c2)
    (hpair : unorderedEq (c1.hub_one, c1.hub_two) (c2.hub_one, c2.hub_two) = true)
    (hok : runLines initState (pre ++ l1 :: mid) = .ok st) :
    parseInput ((pre ++ l1 :: mid) ++ [l2]) =
      .error (.duplicateConnection c2.hub_one c2.hub_two) := by
  have hok2 := hok
  rw [runLines_append] at hok2
  cases hra : runLines initState pre with
  | error e => rw [hra] at hok2; simp at hok2
  | ok sa =>
    rw [hra] at hok2
    unfold runLines at hok2
    cases hb : processLine sa l1 with
    | error e => rw [hb] at hok2; simp at hok2
    | ok sb =>
      rw [hb] at hok2
      obtain ⟨hne1, hmem⟩ := processLine_conn_ok sa l1 c1 sb h1 hb
      have hmem2 : (c1.hub_one, c1.hub_two) ∈ st.seen :=
        runLines_seen_mono sb mid st hok2 _ hmem
      have hup : (c1.hub_one = c2.hub_one ∧ c1.hub_two = c2.hub_two) ∨
          (c1.hub_one = c2.hub_two ∧ c1.hub_two = c2.hub_one) := by
        simpa [unorderedEq] using hpair
      have hne2 : ¬ c2.hub_one = c2.hub_two := by
        rcases hup with ⟨ha, hb3⟩ | ⟨ha, hb3⟩
        · intro hcc
          exact hne1 (ha.trans (hcc.trans hb3.symm))
        · intro hcc
          exact hne1 (ha.trans (hcc.symm.trans hb3.symm))
      have hseen : pairSeen st.seen c2.hub_one c2.hub_two = true := by
        unfold pairSeen
        rw [List.any_eq_true]
        exact ⟨(c1.hub_one, c1.hub_two), hmem2, hpair⟩
      apply parseInput_error
      rw [runLines_append, hok]
      unfold runLines
      rw [processLine_conn_branch st l2 c2 h2, if_neg hne2, if_pos hseen]

/-- Claim C5, witness: the inputs connection a-b then connection b-a
collide on the unordered pair and fail as duplicates. -/
theorem C5_witness :
    parseInput ["connection: a-b", "connection: b-a"] =
      .error (.duplicateConnection "b" "a") :=
  C5_duplicate_connection [] [] "connection: a-b" "connection: b-a"
    ⟨"a", "b", ""⟩ ⟨"b", "a", ""⟩
    ⟨[], [(("a", "b"), ⟨1⟩)], [], [("a", "b")], 0⟩
    (by decide) (by decide) (by decide) (by decide)

/-- Claim C6: a connection declaration whose two endpoint names are
identical makes parsing fail with the self-connection error naming the
zone (first conjunct), and no successfully parsed input ever contains a
zone in its own neighbor set (second conjunct). -/
theorem C6_self_connection_rejected :
    (∀ (ls : List String) (l : String) (c : ConnMatch) (st : ParserState),
      matchConnection l = some c → c.hub_one = c.hub_two →
      runLines initState ls = .ok st →
      parseInput (ls ++ [l]) = .error (.selfConnection c.hub_one c.hub_two)) ∧
    (∀ (lines : List String) (st : ParserState) (a : String),
      parseInput lines = .ok st → a ∉ neighborsOf st.connections a) := by
  constructor
  · intro ls l c st hm heq hok
    apply parseInput_error
    rw [runLines_append, hok]
    unfold runLines
    rw [processLine_conn_branch st l c hm, if_pos heq]
  · intro lines st a h
    obtain ⟨st0, hr, _, _, _, _, hconn⟩ := parseInput_ok_elim lines st h
    have hraw : ∀ p ∈ st0.raw_connections, p.1.1 ≠ p.1.2 :=
      runLines_rawOK initState lines st0 hr
        (by intro p hp; simp [initState] at hp)
    have hself := foldl_expandOne_noSelf st0.raw_connections [] hraw
      (by intro w; simp [neighborsOf, getAssoc])
    rw [hconn]
    exact hself a

/-- Claim C6, witness: the input connection a-a fails with the
self-connection error. -/
theorem C6_witness :
    parseInput ["connection: a-a"] = .error (.selfConnection "a" "a") :=
  C6_self_connection_rejected.1 [] "connection: a-a" ⟨"a", "a", ""⟩ initState
    (by decide) rfl rfl

/-- Claim C9: an nb_drones line whose value parses to a negative
integer aborts the whole parse with the negative-drone-count error
(first conjunct); on every successful parse the resulting drone count
is the value of the last nb_drones line, zero when there is none
(second conjunct, stated both as a left fold and through the last
element of the filtered line list). -/
theorem C9_drone_count :
    (∀ (pre post : List String) (l : String) (st : ParserState) (n : Int),
      runLines initState pre = .ok st →
      startsWithStr "nb_drones:" l = true →
      pyIntChars (nbValue l) = some n → n < 0 →
      parseInput (pre ++ l :: post) = .error (.negativeDrones n)) ∧
    (∀ (lines : List String) (st : ParserState),
      parseInput lines = .ok st →
      st.number_of_drones =
        lines.foldl
          (fun a l => if isNbLine l then (pyIntChars (nbValue l)).getD 0 else a) 0 ∧
      st.number_of_drones =
        (match (lines.filter isNbLine).getLast? with
         | some l => (pyIntChars (nbValue l)).getD 0
         | none => 0)) := by
  constructor
  · intro pre post l st n hok hnb hval hneg
    apply parseInput_error
    rw [runLines_append, hok]
    unfold runLines
    rw [processLine_nb_branch st l hnb, hval]
    simp [hneg]
  · intro lines st h
    obtain ⟨st0, hr, _, _, _, hd, _⟩ := parseInput_ok_elim lines st h
    have hfold := runLines_drones initState lines st0 hr
    have hinit : initState.number_of_drones = 0 := rfl
    rw [hinit] at hfold
    refine ⟨hd.trans hfold, ?_⟩
    rw [hd, hfold, foldl_if_last]
    cases (List.filter isNbLine lines).getLast? <;> rfl

/-- Claim C9, witness: the input nb_drones: -1 fails with the
negative-drone-count error. -/
theorem C9_witness :
    parseInput ["nb_drones: -1"] = .error (.negativeDrones (-1)) :=
  C9_drone_count.1 [] [] "nb_drones: -1" initState (-1) rfl (by decide)
    (by decide) (by decide)

/-- A successful line run yields a successful parse with the same
zones mapping (the final expansion step only writes connections). -/
theorem parseInput_zones_of_runLines (lines : List String) (st2 : ParserState)
    (h : runLines initState lines = .ok st2) :
    ∃ stf, parseInput lines = .ok stf ∧ stf.zones = st2.zones := by
  unfold parseInput
  rw [h]
  refine ⟨_, rfl, ?_⟩
  split <;> rfl

/-- Claim C7: redeclaring a zone name never raises a uniqueness error;
the parse succeeds and the zones mapping holds, under that name,
exactly the hub keyword, coordinates and metadata of the later
declaration, while every other name is untouched. -/
theorem C7_zone_redeclaration (pre mid : List String) (l1 l2 : String)
    (h1 h2 : HubMatch) (zm2 : ZoneMetadata) (st : ParserState)
    (_hname : h1.name = h2.name)
    (_hm1 : matchHub l1 = some h1) (hm2 : matchHub l2 = some h2)
    (hmeta2 : parseZoneMeta h2.metadata = .ok zm2)
    (hok : runLines initState (pre ++ l1 :: mid) = .ok st) :
    ∃ stf, parseInput ((pre ++ l1 :: mid) ++ [l2]) = .ok stf ∧
      stf.zones = setAssoc st.zones h2.name ⟨h2.hub_type, (h2.x, h2.y), zm2⟩ ∧
      getAssoc stf.zones h2.name = some ⟨h2.hub_type, (h2.x, h2.y), zm2⟩ ∧
      ∀ n, n ≠ h2.name → getAssoc stf.zones n = getAssoc st.zones n := by
  have hrun : runLines initState ((pre ++ l1 :: mid) ++ [l2]) =
      .ok { st with
            zones := setAssoc st.zones h2.name ⟨h2.hub_type, (h2.x, h2.y), zm2⟩ } := by
    rw [runLines_append, hok]
    unfold runLines
    rw [processLine_hub_branch st l2 h2 hm2, hmeta2]
    rfl
  obtain ⟨stf, hpf, hz⟩ := parseInput_zones_of_runLines _ _ hrun
  refine ⟨stf, hpf, hz, ?_, ?_⟩
  · rw [hz, getAssoc_setAssoc, if_pos rfl]
  · intro n hn
    rw [hz, getAssoc_setAssoc, if_neg hn]

/-- Claim C7, witness: the name a declared as hub then as start_hub;
the parse succeeds and the second declaration wins in all three
fields. -/
theorem C7_witness :
    ∃ stf, parseInput ["hub: a 0 0", "start_hub: a 5 6 [color=red]"] = .ok stf ∧
      stf.zones = setAssoc
        (ParserState.zones ⟨[("a", ⟨"hub", (0, 0), {}⟩)], [], [], [], 0⟩) "a"
        ⟨"start_hub", (5, 6), { color := some "red" }⟩ ∧
      getAssoc stf.zones "a" = some ⟨"start_hub", (5, 6), { color := some "red" }⟩ ∧
      ∀ n, n ≠ "a" → getAssoc stf.zones n =
        getAssoc (ParserState.zones ⟨[("a", ⟨"hub", (0, 0), {}⟩)], [], [], [], 0⟩) n :=
  C7_zone_redeclaration [] [] "hub: a 0 0" "start_hub: a 5 6 [color=red]"
    ⟨"hub", "a", 0, 0, ""⟩ ⟨"start_hub", "a", 5, 6, "color=red"⟩
    { color := some "red" } ⟨[("a", ⟨"hub", (0, 0), {}⟩)], [], [], [], 0⟩
    rfl (by decide) (by decide) (by decide) (by decide)

/-- Claim C1 (behaviour of the code at the failing inputs): a zero,
negative, or non-numeric value for a designated positive-integer key
makes metadata parsing fail with an error naming that key and the raw
value, but the error is the must-be-an-integer one raised at parser.py
line 134: the must-be-positive ValueError raised at line 131 for zero
and negative values is caught by its own except clause at line 133, so
the must-be-a-positive-integer message promised by the specification
never escapes.  The first conjunct states this for every metadata
record and every zero-or-negative or non-numeric value; the remaining
conjuncts evaluate the parser at concrete failing inputs. -/
theorem C1_positive_integer_error :
    (∀ (m : ZoneMetadata) (v : String),
      (pyIntChars v.toList = none ∨ ∃ n, pyIntChars v.toList = some n ∧ n ≤ 0) →
      applyZonePair m ("max_drones", v) = .error (.mustBeInteger "max_drones" v)) ∧
    parseZoneMeta "max_drones=0" = .error (.mustBeInteger "max_drones" "0") ∧
    parseZoneMeta "max_drones=-2" = .error (.mustBeInteger "max_drones" "-2") ∧
    parseZoneMeta "max_drones=abc" = .error (.mustBeInteger "max_drones" "abc") ∧
    parseConnMeta "max_link_capacity=0" =
      .error (.mustBeInteger "max_link_capacity" "0") ∧
    parseInput ["hub: d 1 1 [max_drones=0]"] =
      .error (.mustBeInteger "max_drones" "0") := by
  refine ⟨?_, by decide, by decide, by decide, by decide, by decide⟩
  intro m v hv
  unfold applyZonePair
  rw [if_neg (by simp [zoneAllowed]), if_pos rfl]
  rcases hv with hv | ⟨n, hv, hn⟩
  · rw [hv]
  · rw [hv]
    simp [hn]

/-- Claim C1, witness for the universally quantified conjunct,
instantiated at the zero value. -/
theorem C1_witness :
    applyZonePair {} ("max_drones", "0") = .error (.mustBeInteger "max_drones" "0") :=
  C1_positive_integer_error.1 {} "0" (Or.inr ⟨0, by decide, by decide⟩)

/-- Claim C2, counterexample to the original statement: the fragment
color=a=b does not keep the value a=b intact; the token is split on
every equals sign into three pieces and the dict() call at parser.py
line 111 raises, so the fragment is rejected instead of parsed. -/
theorem C2_counterexample :
    parseZoneMeta "color=a=b" = .error (.dictBadElement 0 3) ∧
    parseZoneMeta "color=a=b" ≠
      .ok { color := some "a=b", zone := .normal, max_drones := 1 } := by
  refine ⟨by decide, by decide⟩

/-- The value stored by the dict built at parser.py line 111 under any
key, after a successful build: the second piece of the last two-piece
element carrying that key, with the accumulator value as fallback. -/
theorem dictBuild_getAssoc (elems : List (List String)) :
    ∀ (acc : List (String × String)) (i : Nat) (d : List (String × String)),
      dictBuild elems acc i = .ok d →
      ∀ k, getAssoc d k =
        elems.foldl (fun a e =>
          match e with
          | [k2, v2] => if k2 = k then some v2 else a
          | _ => a) (getAssoc acc k) := by
  induction elems with
  | nil =>
    intro acc i d h k
    unfold dictBuild at h
    cases h
    rfl
  | cons e rest ih =>
    intro acc i d h k
    rcases e with _ | ⟨k2, _ | ⟨v2, _ | ⟨w, tl⟩⟩⟩
    · unfold dictBuild at h; simp at h
    · unfold dictBuild at h; simp at h
    · unfold dictBuild at h
      rw [List.foldl_cons, ih (setAssoc acc k2 v2) (i + 1) d h k, getAssoc_setAssoc]
      by_cases hk : k2 = k
      · simp [hk]
      · rw [if_neg (fun hh : k = k2 => hk hh.symm)]
        simp [hk]
    · unfold dictBuild at h; simp at h

/-- Claim C2 (amended): each non-empty token of the fragment is split
on every equals sign; a token that does not yield exactly two pieces
makes the dict construction fail with the element error (whose recorded
length is never two), and otherwise repeated keys follow map-overwrite
semantics with the last occurrence winning. -/
theorem C2_token_split_amended :
    (∀ (elems : List (List String)) (acc : List (String × String)) (i : Nat),
      (∃ e ∈ elems, e.length ≠ 2) →
      ∃ j n, dictBuild elems acc i = .error (.dictBadElement j n) ∧ n ≠ 2) ∧
    (∀ (elems : List (List String)) (d : List (String × String)),
      dictBuild elems [] 0 = .ok d →
      ∀ k, getAssoc d k =
        elems.foldl (fun a e =>
          match e with
          | [k2, v2] => if k2 = k then some v2 else a
          | _ => a) none) ∧
    parseZoneMeta "color=x color=y" =
      .ok { color := some "y", zone := .normal, max_drones := 1 } ∧
    parseConnMeta "max_link_capacity=2 max_link_capacity=3" = .ok ⟨3⟩ := by
  refine ⟨?_, ?_, by decide, by decide⟩
  · intro elems
    induction elems with
    | nil =>
      intro acc i h
      simp at h
    | cons e rest ih =>
      intro acc i h
      rcases e with _ | ⟨k2, _ | ⟨v2, _ | ⟨w, tl⟩⟩⟩
      · exact ⟨i, 0, rfl, by decide⟩
      · exact ⟨i, 1, rfl, by decide⟩
      · have hbad : ∃ e ∈ rest, e.length ≠ 2 := by
          rcases h with ⟨e, he, hl⟩
          rcases List.mem_cons.mp he with rfl | he2
          · simp at hl
          · exact ⟨e, he2, hl⟩
        unfold dictBuild
        exact ih (setAssoc acc k2 v2) (i + 1) hbad
      · refine ⟨i, tl.length + 3, rfl, by omega⟩
  · intro elems d h k
    rw [dictBuild_getAssoc elems [] 0 d h k]
    rfl

/-- Claim C2, witness: the failure half applied to a three-piece
element, and the overwrite half applied to a repeated key. -/
theorem C2_witness :
    (∃ j n, dictBuild [["color", "a", "b"]] [] 0 =
      .error (.dictBadElement j n) ∧ n ≠ 2) ∧
    (∀ k, getAssoc [("color", "y")] k =
      [["color", "x"], ["color", "y"]].foldl (fun a e =>
        match e with
        | [k2, v2] => if k2 = k then some v2 else a
        | _ => a) none) :=
  ⟨C2_token_split_amended.1 [["color", "a", "b"]] [] 0
      ⟨["color", "a", "b"], by decide, by decide⟩,
   C2_token_split_amended.2.1 [["color", "x"], ["color", "y"]] [("color", "y")]
      (by decide)⟩


/-! ## Character classes and token concatenation -/

theorem wordChar_not_ws (c : Char) (h : isWordChar c = true) : isWS c = false := by
  by_contra hw
  rw [Bool.not_eq_false] at hw
  have h2 : c = ' ' ∨ c = '\t' ∨ c = '\r' ∨ c = '\n' := by
    simpa [isWS, Char.isWhitespace, or_assoc] using hw
  rcases h2 with rfl | rfl | rfl | rfl <;> exact absurd h (by decide)

theorem digit_not_ws (c : Char) (h : c.isDigit = true) : isWS c = false := by
  by_contra hw
  rw [Bool.not_eq_false] at hw
  have h2 : c = ' ' ∨ c = '\t' ∨ c = '\r' ∨ c = '\n' := by
    simpa [isWS, Char.isWhitespace, or_assoc] using hw
  rcases h2 with rfl | rfl | rfl | rfl <;> exact absurd h (by decide)

theorem digit_ne_dash (c : Char) (h : c.isDigit = true) : ¬ c = '-' := by
  intro hc
  subst hc
  exact absurd h (by decide)

/-- Maximal munch over a concatenation: when every character of the
first part satisfies the test and the first character after it does
not, the take/drop pair splits exactly at the boundary. -/
theorem takeWhile_dropWhile_append (p : Char → Bool) (l1 l2 : List Char)
    (h1 : ∀ c ∈ l1, p c = true)
    (h2 : ∀ c, l2.head? = some c → p c = false) :
    (l1 ++ l2).takeWhile p = l1 ∧ (l1 ++ l2).dropWhile p = l2 := by
  induction l1 with
  | nil =>
    cases l2 with
    | nil => exact ⟨rfl, rfl⟩
    | cons c t =>
      have hc : p c = false := h2 c rfl
      simp [List.takeWhile_cons, List.dropWhile_cons, hc]
  | cons c t ih =>
    have hc : p c = true := h1 c (List.mem_cons_self _ _)
    have iht := ih (fun d hd => h1 d (List.mem_cons_of_mem _ hd))
    simp [List.takeWhile_cons, List.dropWhile_cons, hc, iht.1, iht.2]

theorem chopLit_self (lit : List Char) : ∀ r, chopLit lit (lit ++ r) = some r := by
  induction lit with
  | nil => intro r; rfl
  | cons c t ih => intro r; simp [chopLit, ih r]

theorem chopLit_head_ne (p c : Char) (ps cs : List Char) (h : ¬ c = p) :
    chopLit (p :: ps) (c :: cs) = none := by
  simp [chopLit, h]

theorem matchWs1_space (r : List Char) (c : Char) (t : List Char)
    (hr : r = c :: t) (hc : isWS c = false) :
    matchWs1 (' ' :: r) = some r := by
  rw [show matchWs1 (' ' :: r) =
      (if isWS ' ' = true then some (r.dropWhile isWS) else none) from rfl]
  rw [if_pos (by decide : isWS ' ' = true), hr, List.dropWhile_cons, hc]
  simp

/-- The hub pattern on a line built from a word-character name, digit
coordinates and arbitrary trailing characters beginning with a
non-digit: the match succeeds with exactly the built fields, the
trailing characters contributing only through the optional metadata
group. -/
theorem matchHubCore_construct (nm xs ys junk : List Char)
    (hnm : nm ≠ []) (hnmw : ∀ c ∈ nm, isWordChar c = true)
    (hxs : xs ≠ []) (hxsd : ∀ c ∈ xs, Char.isDigit c = true)
    (hys : ys ≠ []) (hysd : ∀ c ∈ ys, Char.isDigit c = true)
    (hjd : ∀ c, junk.head? = some c → Char.isDigit c = false) :
    matchHubCore ("hub: ".toList ++ nm ++ ' ' :: xs ++ ' ' :: ys ++ junk) =
      some ⟨"hub", String.mk nm, (digitsVal xs : Int), (digitsVal ys : Int),
            String.mk (matchMeta junk)⟩ := by
  rcases nm with _ | ⟨n0, nm1⟩
  · exact absurd rfl hnm
  rcases xs with _ | ⟨x0, xs1⟩
  · exact absurd rfl hxs
  rcases ys with _ | ⟨y0, ys1⟩
  · exact absurd rfl hys
  have hn0 : isWordChar n0 = true := hnmw n0 (List.mem_cons_self _ _)
  have hx0 : Char.isDigit x0 = true := hxsd x0 (List.mem_cons_self _ _)
  have hy0 : Char.isDigit y0 = true := hysd y0 (List.mem_cons_self _ _)
  have hsw1 := takeWhile_dropWhile_append isWordChar (n0 :: nm1)
    (' ' :: ((x0 :: xs1) ++ ' ' :: (y0 :: ys1) ++ junk)) hnmw
    (by intro c hc; cases hc; decide)
  have hsx := takeWhile_dropWhile_append Char.isDigit (x0 :: xs1)
    (' ' :: ((y0 :: ys1) ++ junk)) hxsd (by intro c hc; cases hc; decide)
  have hsy := takeWhile_dropWhile_append Char.isDigit (y0 :: ys1) junk hysd hjd
  have e0 : matchKw ("hub: ".toList ++ (n0 :: nm1) ++ ' ' :: (x0 :: xs1) ++ ' ' :: (y0 :: ys1) ++ junk)
      = some ("hub", ' ' :: ((n0 :: nm1) ++ ' ' :: (x0 :: xs1) ++ ' ' :: (y0 :: ys1) ++ junk)) := by
    unfold matchKw
    rw [show "hub: ".toList ++ (n0 :: nm1) ++ ' ' :: (x0 :: xs1) ++ ' ' :: (y0 :: ys1) ++ junk =
        'h' :: ('u' :: 'b' :: ':' :: (' ' :: ((n0 :: nm1) ++ ' ' :: (x0 :: xs1) ++ ' ' :: (y0 :: ys1) ++ junk))) from by simp]
    rw [show "start_hub:".toList = 's' :: "tart_hub:".toList from rfl,
        show "end_hub:".toList = 'e' :: "nd_hub:".toList from rfl]
    rw [chopLit_head_ne 's' 'h' _ _ (by decide), chopLit_head_ne 'e' 'h' _ _ (by decide)]
    rw [show 'h' :: ('u' :: 'b' :: ':' :: (' ' :: ((n0 :: nm1) ++ ' ' :: (x0 :: xs1) ++ ' ' :: (y0 :: ys1) ++ junk))) =
        "hub:".toList ++ (' ' :: ((n0 :: nm1) ++ ' ' :: (x0 :: xs1) ++ ' ' :: (y0 :: ys1) ++ junk)) from rfl]
    rw [chopLit_self]
  have e1 := matchWs1_space ((n0 :: nm1) ++ ' ' :: (x0 :: xs1) ++ ' ' :: (y0 :: ys1) ++ junk)
    n0 (nm1 ++ ' ' :: (x0 :: xs1) ++ ' ' :: (y0 :: ys1) ++ junk) (by simp) (wordChar_not_ws n0 hn0)
  have e2 : matchWord ((n0 :: nm1) ++ ' ' :: (x0 :: xs1) ++ ' ' :: (y0 :: ys1) ++ junk)
      = some (n0 :: nm1, ' ' :: ((x0 :: xs1) ++ ' ' :: (y0 :: ys1) ++ junk)) := by
    rw [show (n0 :: nm1) ++ ' ' :: (x0 :: xs1) ++ ' ' :: (y0 :: ys1) ++ junk =
        n0 :: (nm1 ++ ' ' :: ((x0 :: xs1) ++ ' ' :: (y0 :: ys1) ++ junk)) from by simp]
    rw [show matchWord (n0 :: (nm1 ++ ' ' :: ((x0 :: xs1) ++ ' ' :: (y0 :: ys1) ++ junk))) =
        (if isWordChar n0 = true then
          some ((n0 :: (nm1 ++ ' ' :: ((x0 :: xs1) ++ ' ' :: (y0 :: ys1) ++ junk))).takeWhile isWordChar,
                (n0 :: (nm1 ++ ' ' :: ((x0 :: xs1) ++ ' ' :: (y0 :: ys1) ++ junk))).dropWhile isWordChar)
         else none) from rfl]
    rw [if_pos hn0]
    rw [show n0 :: (nm1 ++ ' ' :: ((x0 :: xs1) ++ ' ' :: (y0 :: ys1) ++ junk)) =
        (n0 :: nm1) ++ (' ' :: ((x0 :: xs1) ++ ' ' :: (y0 :: ys1) ++ junk)) from by simp]
    rw [hsw1.1, hsw1.2]
  have e3 := matchWs1_space ((x0 :: xs1) ++ ' ' :: (y0 :: ys1) ++ junk)
    x0 (xs1 ++ ' ' :: (y0 :: ys1) ++ junk) (by simp) (digit_not_ws x0 hx0)
  have e4 : matchInt ((x0 :: xs1) ++ ' ' :: (y0 :: ys1) ++ junk)
      = some ((digitsVal (x0 :: xs1) : Int), ' ' :: ((y0 :: ys1) ++ junk)) := by
    rw [show (x0 :: xs1) ++ ' ' :: (y0 :: ys1) ++ junk =
        x0 :: (xs1 ++ ' ' :: ((y0 :: ys1) ++ junk)) from by simp]
    rw [show matchInt (x0 :: (xs1 ++ ' ' :: ((y0 :: ys1) ++ junk))) =
        (if x0 = '-' then
          if (xs1 ++ ' ' :: ((y0 :: ys1) ++ junk)).takeWhile Char.isDigit = [] then none
          else some (-(digitsVal ((xs1 ++ ' ' :: ((y0 :: ys1) ++ junk)).takeWhile Char.isDigit) : Int),
                     (xs1 ++ ' ' :: ((y0 :: ys1) ++ junk)).dropWhile Char.isDigit)
         else
          if (x0 :: (xs1 ++ ' ' :: ((y0 :: ys1) ++ junk))).takeWhile Char.isDigit = [] then none
          else some ((digitsVal ((x0 :: (xs1 ++ ' ' :: ((y0 :: ys1) ++ junk))).takeWhile Char.isDigit) : Int),
                     (x0 :: (xs1 ++ ' ' :: ((y0 :: ys1) ++ junk))).dropWhile Char.isDigit)) from rfl]
    rw [if_neg (digit_ne_dash x0 hx0)]
    rw [show x0 :: (xs1 ++ ' ' :: ((y0 :: ys1) ++ junk)) =
        (x0 :: xs1) ++ (' ' :: ((y0 :: ys1) ++ junk)) from by simp]
    rw [hsx.1, hsx.2]
    rw [if_neg (by simp : ¬ (x0 :: xs1) = [])]
  have e5 := matchWs1_space ((y0 :: ys1) ++ junk)
    y0 (ys1 ++ junk) (by simp) (digit_not_ws y0 hy0)
  have e6 : matchInt ((y0 :: ys1) ++ junk)
      = some ((digitsVal (y0 :: ys1) : Int), junk) := by
    rw [show (y0 :: ys1) ++ junk = y0 :: (ys1 ++ junk) from by simp]
    rw [show matchInt (y0 :: (ys1 ++ junk)) =
        (if y0 = '-' then
          if (ys1 ++ junk).takeWhile Char.isDigit = [] then none
          else some (-(digitsVal ((ys1 ++ junk).takeWhile Char.isDigit) : Int),
                     (ys1 ++ junk).dropWhile Char.isDigit)
         else
          if (y0 :: (ys1 ++ junk)).takeWhile Char.isDigit = [] then none
          else some ((digitsVal ((y0 :: (ys1 ++ junk)).takeWhile Char.isDigit) : Int),
                     (y0 :: (ys1 ++ junk)).dropWhile Char.isDigit)) from rfl]
    rw [if_neg (digit_ne_dash y0 hy0)]
    rw [show y0 :: (ys1 ++ junk) = (y0 :: ys1) ++ junk from by simp]
    rw [hsy.1, hsy.2]
    rw [if_neg (by simp : ¬ (y0 :: ys1) = [])]
  unfold matchHubCore
  rw [e0]
  simp only [Option.some_bind]
  rw [e1]
  simp only [Option.some_bind]
  rw [e2]
  simp only [Option.some_bind]
  rw [e3]
  simp only [Option.some_bind]
  rw [e4]
  simp only [Option.some_bind]
  rw [e5]
  simp only [Option.some_bind]
  rw [e6]
  rfl

/-- The connection pattern on a line built from two word-character
names and arbitrary trailing characters beginning with a non-word
character: the match succeeds with exactly the built fields. -/
theorem matchConnCore_construct (nm nm2 junk2 : List Char)
    (hnm : nm ≠ []) (hnmw : ∀ c ∈ nm, isWordChar c = true)
    (hnm2 : nm2 ≠ []) (hnm2w : ∀ c ∈ nm2, isWordChar c = true)
    (hj2 : ∀ c, junk2.head? = some c → isWordChar c = false) :
    matchConnCore ("connection: ".toList ++ nm ++ '-' :: nm2 ++ junk2) =
      some ⟨String.mk nm, String.mk nm2, String.mk (matchMeta junk2)⟩ := by
  rcases nm with _ | ⟨n0, nm1⟩
  · exact absurd rfl hnm
  rcases nm2 with _ | ⟨m0, ms1⟩
  · exact absurd rfl hnm2
  have hn0 : isWordChar n0 = true := hnmw n0 (List.mem_cons_self _ _)
  have hm0 : isWordChar m0 = true := hnm2w m0 (List.mem_cons_self _ _)
  have hsw1 := takeWhile_dropWhile_append isWordChar (n0 :: nm1)
    ('-' :: ((m0 :: ms1) ++ junk2)) hnmw
    (by intro c hc; cases hc; decide)
  have hsw2 := takeWhile_dropWhile_append isWordChar (m0 :: ms1) junk2 hnm2w hj2
  have e0 : chopLit "connection:".toList
      ("connection: ".toList ++ (n0 :: nm1) ++ '-' :: (m0 :: ms1) ++ junk2)
      = some (' ' :: ((n0 :: nm1) ++ '-' :: (m0 :: ms1) ++ junk2)) := by
    rw [show "connection: ".toList ++ (n0 :: nm1) ++ '-' :: (m0 :: ms1) ++ junk2 =
        "connection:".toList ++ (' ' :: ((n0 :: nm1) ++ '-' :: (m0 :: ms1) ++ junk2)) from by simp]
    rw [chopLit_self]
  have e1 := matchWs1_space ((n0 :: nm1) ++ '-' :: (m0 :: ms1) ++ junk2)
    n0 (nm1 ++ '-' :: (m0 :: ms1) ++ junk2) (by simp) (wordChar_not_ws n0 hn0)
  have e2 : matchWord ((n0 :: nm1) ++ '-' :: (m0 :: ms1) ++ junk2)
      = some (n0 :: nm1, '-' :: ((m0 :: ms1) ++ junk2)) := by
    rw [show (n0 :: nm1) ++ '-' :: (m0 :: ms1) ++ junk2 =
        n0 :: (nm1 ++ '-' :: ((m0 :: ms1) ++ junk2)) from by simp]
    rw [show matchWord (n0 :: (nm1 ++ '-' :: ((m0 :: ms1) ++ junk2))) =
        (if isWordChar n0 = true then
          some ((n0 :: (nm1 ++ '-' :: ((m0 :: ms1) ++ junk2))).takeWhile isWordChar,
                (n0 :: (nm1 ++ '-' :: ((m0 :: ms1) ++ junk2))).dropWhile isWordChar)
         else none) from rfl]
    rw [if_pos hn0]
    rw [show n0 :: (nm1 ++ '-' :: ((m0 :: ms1) ++ junk2)) =
        (n0 :: nm1) ++ ('-' :: ((m0 :: ms1) ++ junk2)) from by simp]
    rw [hsw1.1, hsw1.2]
  have e3 : matchWord ((m0 :: ms1) ++ junk2) = some (m0 :: ms1, junk2) := by
    rw [show (m0 :: ms1) ++ junk2 = m0 :: (ms1 ++ junk2) from by simp]
    rw [show matchWord (m0 :: (ms1 ++ junk2)) =
        (if isWordChar m0 = true then
          some ((m0 :: (ms1 ++ junk2)).takeWhile isWordChar,
                (m0 :: (ms1 ++ junk2)).dropWhile isWordChar)
         else none) from rfl]
    rw [if_pos hm0]
    rw [show m0 :: (ms1 ++ junk2) = (m0 :: ms1) ++ junk2 from by simp]
    rw [hsw2.1, hsw2.2]
  unfold matchConnCore
  rw [e0]
  simp only [Option.some_bind]
  rw [e1]
  simp only [Option.some_bind]
  rw [e2]
  simp only [Option.some_bind]
  show (matchWord ((m0 :: ms1) ++ junk2)).map
      (fun br => (⟨String.mk (n0 :: nm1), String.mk br.1,
        String.mk (matchMeta br.2)⟩ : ConnMatch)) =
    some ⟨String.mk (n0 :: nm1), String.mk (m0 :: ms1), String.mk (matchMeta junk2)⟩
  rw [e3]
  rfl

/-- Claim C10: the hub and connection patterns are matched as prefixes
of the line, so any trailing characters after the matched fields are
silently ignored.  A hub line extended by trailing characters that
start with a non-digit and do not form a bracketed metadata group is
accepted as a zone declaration with exactly the matched name and
coordinates and the default metadata; a connection line extended by
trailing characters starting with a non-word character is matched with
exactly the two names. -/
theorem C10_prefix_match_trailing_junk (st : ParserState)
    (nm xs ys junk nm2 nm3 junk2 : List Char)
    (hnm : nm ≠ []) (hnmw : ∀ c ∈ nm, isWordChar c = true)
    (hxs : xs ≠ []) (hxsd : ∀ c ∈ xs, Char.isDigit c = true)
    (hys : ys ≠ []) (hysd : ∀ c ∈ ys, Char.isDigit c = true)
    (hjd : ∀ c, junk.head? = some c → Char.isDigit c = false)
    (hjm : matchMeta junk = [])
    (hnm2 : nm2 ≠ []) (hnm2w : ∀ c ∈ nm2, isWordChar c = true)
    (hnm3 : nm3 ≠ []) (hnm3w : ∀ c ∈ nm3, isWordChar c = true)
    (hj2 : ∀ c, junk2.head? = some c → isWordChar c = false) :
    matchHub (String.mk ("hub: ".toList ++ nm ++ ' ' :: xs ++ ' ' :: ys ++ junk)) =
      some ⟨"hub", String.mk nm, (digitsVal xs : Int), (digitsVal ys : Int), ""⟩ ∧
    processLine st (String.mk ("hub: ".toList ++ nm ++ ' ' :: xs ++ ' ' :: ys ++ junk)) =
      .ok { st with
            zones := setAssoc st.zones (String.mk nm)
                       ⟨"hub", ((digitsVal xs : Int), (digitsVal ys : Int)), {}⟩ } ∧
    matchConnection (String.mk ("connection: ".toList ++ nm2 ++ '-' :: nm3 ++ junk2)) =
      some ⟨String.mk nm2, String.mk nm3, String.mk (matchMeta junk2)⟩ := by
  have hmh : matchHub (String.mk ("hub: ".toList ++ nm ++ ' ' :: xs ++ ' ' :: ys ++ junk)) =
      some ⟨"hub", String.mk nm, (digitsVal xs : Int), (digitsVal ys : Int),
            String.mk (matchMeta junk)⟩ :=
    matchHubCore_construct nm xs ys junk hnm hnmw hxs hxsd hys hysd hjd
  rw [hjm] at hmh
  refine ⟨hmh, ?_, ?_⟩
  · rw [processLine_hub_branch st _ _ hmh]
    rfl
  · exact matchConnCore_construct nm2 nm3 junk2 hnm2 hnm2w hnm3 hnm3w hj2

/-- Claim C10, witness: the line hub: a 1 1 trailing junk is accepted
as zone a at coordinates one-one with default metadata, and the line
connection: a-b-c is matched as the connection a-b. -/
theorem C10_witness :
    matchHub "hub: a 1 1 trailing junk" = some ⟨"hub", "a", 1, 1, ""⟩ ∧
    processLine initState "hub: a 1 1 trailing junk" =
      .ok { initState with zones := setAssoc initState.zones "a" ⟨"hub", (1, 1), {}⟩ } ∧
    matchConnection "connection: a-b-c" = some ⟨"a", "b", ""⟩ := by
  obtain ⟨h1, h2, h3⟩ := C10_prefix_match_trailing_junk initState "a".toList "1".toList
    "1".toList " trailing junk".toList "a".toList "b".toList "-c".toList
    (by decide) (by decide) (by decide) (by decide) (by decide) (by decide)
    (by decide) (by decide) (by decide) (by decide) (by decide) (by decide)
    (by decide)
  have hs1 : ("hub: a 1 1 trailing junk" : String) =
      String.mk ("hub: ".toList ++ "a".toList ++ ' ' :: "1".toList ++
        ' ' :: "1".toList ++ " trailing junk".toList) := by decide
  have hs2 : ("connection: a-b-c" : String) =
      String.mk ("connection: ".toList ++ "a".toList ++ '-' :: "b".toList ++ "-c".toList) := by
    decide
  refine ⟨?_, ?_, ?_⟩
  · rw [hs1, h1]
    decide
  · rw [hs1, h2]
    decide
  · rw [hs2, h3]
    decide

/-! ## Decimal rendering, for the canonical re-serialization of C8 -/

/-- The decimal digit character for a value below ten. -/
def digitChar (d : Nat) : Char :=
  if d = 0 then '0' else if d = 1 then '1' else if d = 2 then '2'
  else if d = 3 then '3' else if d = 4 then '4' else if d = 5 then '5'
  else if d = 6 then '6' else if d = 7 then '7' else if d = 8 then '8' else '9'

/-- Decimal digits of a natural number, most significant first,
accumulated onto acc. -/
def natDigitsAux (n : Nat) (acc : List Char) : List Char :=
  if n < 10 then digitChar n :: acc
  else natDigitsAux (n / 10) (digitChar (n % 10) :: acc)
termination_by n
decreasing_by exact Nat.div_lt_self (by omega) (by omega)

/-- Decimal digits of a natural number. -/
def natDigits (n : Nat) : List Char := natDigitsAux n []

/-- Decimal rendering of an integer. -/
def intChars (n : Int) : List Char :=
  if n < 0 then '-' :: natDigits (-n).toNat else natDigits n.toNat

/-- Number of digits the rendering produces. -/
def digitCount (n : Nat) : Nat :=
  if n < 10 then 1 else digitCount (n / 10) + 1
termination_by n
decreasing_by exact Nat.div_lt_self (by omega) (by omega)

theorem digitChar_isDigit (d : Nat) (h : d < 10) : (digitChar d).isDigit = true := by
  interval_cases d <;> decide

theorem digitChar_val (d : Nat) (h : d < 10) : (digitChar d).toNat - 48 = d := by
  interval_cases d <;> decide

theorem natDigitsAux_all (n : Nat) :
    ∀ acc, (∀ c ∈ acc, c.isDigit = true) →
      ∀ c ∈ natDigitsAux n acc, c.isDigit = true := by
  induction n using Nat.strong_induction_on with
  | _ n ih =>
    intro acc hacc c hc
    unfold natDigitsAux at hc
    by_cases h : n < 10
    · rw [if_pos h] at hc
      rcases List.mem_cons.mp hc with rfl | hc2
      · exact digitChar_isDigit n h
      · exact hacc c hc2
    · rw [if_neg h] at hc
      refine ih (n / 10) (Nat.div_lt_self (by omega) (by omega))
        (digitChar (n % 10) :: acc) ?_ c hc
      intro d hd
      rcases List.mem_cons.mp hd with rfl | hd2
      · exact digitChar_isDigit _ (Nat.mod_lt _ (by omega))
      · exact hacc d hd2

theorem natDigitsAux_ne_nil (n : Nat) : ∀ acc, natDigitsAux n acc ≠ [] := by
  induction n using Nat.strong_induction_on with
  | _ n ih =>
    intro acc
    unfold natDigitsAux
    by_cases h : n < 10
    · rw [if_pos h]
      simp
    · rw [if_neg h]
      exact ih (n / 10) (Nat.div_lt_self (by omega) (by omega)) _

/-- The folded numeric value used by the embedded int(). -/
def valFold (l : List Char) (a : Nat) : Nat :=
  l.foldl (fun x c => x * 10 + (c.toNat - 48)) a

theorem natDigitsAux_valFold (n : Nat) :
    ∀ acc a, valFold (natDigitsAux n acc) a =
      valFold acc (a * 10 ^ digitCount n + n) := by
  induction n using Nat.strong_induction_on with
  | _ n ih =>
    intro acc a
    unfold natDigitsAux digitCount
    by_cases h : n < 10
    · rw [if_pos h, if_pos h]
      show valFold acc (a * 10 + ((digitChar n).toNat - 48)) = valFold acc (a * 10 ^ 1 + n)
      rw [digitChar_val n h]
      norm_num
    · rw [if_neg h, if_neg h]
      rw [ih (n / 10) (Nat.div_lt_self (by omega) (by omega))]
      show valFold acc ((a * 10 ^ digitCount (n / 10) + n / 10) * 10 + ((digitChar (n % 10)).toNat - 48)) =
        valFold acc (a * 10 ^ (digitCount (n / 10) + 1) + n)
      rw [digitChar_val _ (Nat.mod_lt _ (by omega))]
      congr 1
      rw [pow_succ]
      have hdm : n / 10 * 10 + n % 10 = n := by
        rw [Nat.mul_comm]
        exact Nat.div_add_mod n 10
      calc (a * 10 ^ digitCount (n / 10) + n / 10) * 10 + n % 10
          = a * (10 ^ digitCount (n / 10) * 10) + (n / 10 * 10 + n % 10) := by ring
        _ = a * (10 ^ digitCount (n / 10) * 10) + n := by rw [hdm]

theorem digitsVal_natDigits (n : Nat) : digitsVal (natDigits n) = n := by
  have h := natDigitsAux_valFold n [] 0
  unfold natDigits
  show valFold (natDigitsAux n []) 0 = n
  rw [h]
  show 0 * 10 ^ digitCount n + n = n
  omega

theorem digit_ne_plus (c : Char) (h : c.isDigit = true) : ¬ c = '+' := by
  intro hc
  subst hc
  exact absurd h (by decide)

theorem dropWhile_eq_self_of_all (p : Char → Bool) (l : List Char)
    (h : ∀ c ∈ l, p c = false) : l.dropWhile p = l := by
  cases l with
  | nil => rfl
  | cons c t =>
    rw [List.dropWhile_cons, h c (List.mem_cons_self _ _)]
    simp

theorem trimChars_eq_self (cs : List Char) (h : ∀ c ∈ cs, isWS c = false) :
    trimChars cs = cs := by
  unfold trimChars
  rw [dropWhile_eq_self_of_all isWS cs h]
  rw [dropWhile_eq_self_of_all isWS cs.reverse (fun c hc => h c (List.mem_reverse.mp hc))]
  exact List.reverse_reverse cs

/-- The embedded int() inverts the decimal rendering of a natural
number. -/
theorem pyIntChars_natDigits (k : Nat) : pyIntChars (natDigits k) = some (k : Int) := by
  have hall : ∀ c ∈ natDigits k, c.isDigit = true :=
    natDigitsAux_all k [] (by intro c hc; simp at hc)
  have hne : natDigits k ≠ [] := natDigitsAux_ne_nil k []
  have htrim : trimChars (natDigits k) = natDigits k :=
    trimChars_eq_self _ (fun c hc => digit_not_ws c (hall c hc))
  obtain ⟨c0, t0, hct⟩ := List.exists_cons_of_ne_nil hne
  have hc0 : c0.isDigit = true := hall c0 (by rw [hct]; exact List.mem_cons_self _ _)
  unfold pyIntChars
  rw [htrim, hct]
  show (if c0 = '-' then (pyIntAfterSign t0).map (fun n => -(n : Int))
        else if c0 = '+' then (pyIntAfterSign t0).map (fun n => (n : Int))
        else (pyIntAfterSign (c0 :: t0)).map (fun n => (n : Int))) = some (k : Int)
  rw [if_neg (digit_ne_dash c0 hc0), if_neg (digit_ne_plus c0 hc0)]
  unfold pyIntAfterSign
  rw [if_pos ⟨by simp, by
    rw [List.all_eq_true]
    intro c hc
    exact hall c (by rw [hct]; exact hc)⟩]
  rw [show digitsVal (c0 :: t0) = digitsVal (natDigits k) from by rw [hct]]
  rw [digitsVal_natDigits]
  rfl

/-! ## Canonical serialization of metadata records, for claim C8 -/

/-- The enumerator string of a zone type. -/
def zoneTypeStr : ZoneTypes → String
  | .normal => "normal"
  | .blocked => "blocked"
  | .restricted => "restricted"
  | .priority => "priority"

/-- Modelled from the spec: the canonical re-serialization of a parsed
zone metadata record.  No serializer exists in the source; the spec
(sections 6 and 8) fixes the fragment grammar as space-separated
key=value tokens, so the canonical form writes every field of the
record in that grammar, omitting the color key when the record has no
color. -/
def serializeZoneMeta (m : ZoneMetadata) : String :=
  String.mk ("zone=".toList ++ (zoneTypeStr m.zone).toList ++
    (match m.color with
     | none => []
     | some c => " color=".toList ++ c.toList) ++
    " max_drones=".toList ++ intChars m.max_drones)

/-- Modelled from the spec: the canonical re-serialization of a parsed
connection metadata record (same grammar, single key). -/
def serializeConnMeta (m : ConnectionMetadata) : String :=
  String.mk ("max_link_capacity=".toList ++ intChars m.max_link_capacity)

theorem zoneTypeStr_ok (z : ZoneTypes) :
    zoneTypeOfString (zoneTypeStr z) = some z := by
  cases z <;> rfl

theorem zoneTypeStr_chars (z : ZoneTypes) :
    (zoneTypeStr z).toList ≠ [] ∧
      ∀ c ∈ (zoneTypeStr z).toList, isWS c = false ∧ ¬ c = '=' := by
  cases z <;> exact ⟨by decide, by decide⟩

/-! ## Structure of splits, for the round-trip of C8 -/

theorem splitPred_all (p : Char → Bool) (cs : List Char) :
    (∀ c ∈ (splitPred p cs).1, p c = false) ∧
      (∀ t ∈ (splitPred p cs).2, ∀ c ∈ t, p c = false) := by
  induction cs with
  | nil => exact ⟨by simp [splitPred], by simp [splitPred]⟩
  | cons c cs ih =>
    by_cases hp : p c
    · refine ⟨by simp [splitPred, hp], ?_⟩
      intro t ht d hd
      simp only [splitPred, if_pos hp, List.mem_cons] at ht
      rcases ht with rfl | ht2
      · exact ih.1 d hd
      · exact ih.2 t ht2 d hd
    · constructor
      · intro d hd
        simp only [splitPred, if_neg hp, List.mem_cons] at hd
        rcases hd with rfl | hd2
        · simpa using hp
        · exact ih.1 d hd2
      · intro t ht d hd
        simp only [splitPred, if_neg hp] at ht
        exact ih.2 t ht d hd

theorem splitPred_append_all (p : Char → Bool) (l1 : List Char)
    (h1 : ∀ c ∈ l1, p c = false) (l2 : List Char) :
    splitPred p (l1 ++ l2) =
      (l1 ++ (splitPred p l2).1, (splitPred p l2).2) := by
  induction l1 with
  | nil => simp
  | cons c t ih =>
    have hc : p c = false := h1 c (List.mem_cons_self _ _)
    have iht := ih (fun d hd => h1 d (List.mem_cons_of_mem _ hd))
    simp only [List.cons_append, splitPred, hc, iht]
    simp [iht]

/-- Python str.split() over a token ++ space ++ rest string. -/
theorem pyTokens_cons_token (t rest : List Char) (ht : t ≠ [])
    (hnw : ∀ c ∈ t, isWS c = false) :
    pyTokens (t ++ ' ' :: rest) = t :: pyTokens rest := by
  unfold pyTokens splitFull
  rw [splitPred_append_all isWS t hnw (' ' :: rest)]
  have hsp : splitPred isWS (' ' :: rest) =
      ([], (splitPred isWS rest).1 :: (splitPred isWS rest).2) := by
    simp [splitPred, show isWS ' ' = true from by decide]
  rw [hsp]
  simp [List.filter_cons, ht]

/-- Python str.split() over a single whitespace-free token. -/
theorem pyTokens_single (t : List Char) (ht : t ≠ [])
    (hnw : ∀ c ∈ t, isWS c = false) :
    pyTokens t = [t] := by
  unfold pyTokens splitFull
  rw [show t = t ++ [] from by simp, splitPred_append_all isWS t hnw []]
  simp [splitPred, List.filter_cons, ht]

/-- Splitting a key=value token on the equals sign, when neither part
contains the sign. -/
theorem eqPieces_pair (k v : List Char)
    (hk : ∀ c ∈ k, ¬ c = '=') (hv : ∀ c ∈ v, ¬ c = '=') :
    eqPieces (k ++ '=' :: v) = [String.mk k, String.mk v] := by
  unfold eqPieces splitFull
  have hkb : ∀ c ∈ k, (fun c => c == '=') c = false := by
    intro c hc
    simpa using hk c hc
  have hvb : ∀ c ∈ v, (fun c => c == '=') c = false := by
    intro c hc
    simpa using hv c hc
  rw [splitPred_append_all _ k hkb ('=' :: v)]
  have hsp : splitPred (fun c => c == '=') ('=' :: v) =
      ([], (splitPred (fun c => c == '=') v).1 :: (splitPred (fun c => c == '=') v).2) := by
    simp [splitPred]
  rw [hsp]
  rw [show v = v ++ [] from by simp, splitPred_append_all _ v hvb []]
  simp [splitPred]

/-- A string that can appear as a key or value inside one fragment
token: no whitespace and no equals sign. -/
def tokenSafe (s : String) : Prop :=
  ∀ c ∈ s.toList, isWS c = false ∧ ¬ c = '='

theorem splitPred_subset (p : Char → Bool) (cs : List Char) :
    (∀ c ∈ (splitPred p cs).1, c ∈ cs) ∧
      (∀ t ∈ (splitPred p cs).2, ∀ c ∈ t, c ∈ cs) := by
  induction cs with
  | nil => exact ⟨by simp [splitPred], by simp [splitPred]⟩
  | cons c cs ih =>
    by_cases hp : p c
    · refine ⟨by simp [splitPred, hp], ?_⟩
      intro t ht d hd
      simp only [splitPred, if_pos hp, List.mem_cons] at ht
      rcases ht with rfl | ht2
      · exact List.mem_cons_of_mem _ (ih.1 d hd)
      · exact List.mem_cons_of_mem _ (ih.2 t ht2 d hd)
    · constructor
      · intro d hd
        simp only [splitPred, if_neg hp, List.mem_cons] at hd
        rcases hd with rfl | hd2
        · exact List.mem_cons_self _ _
        · exact List.mem_cons_of_mem _ (ih.1 d hd2)
      · intro t ht d hd
        simp only [splitPred, if_neg hp] at ht
        exact List.mem_cons_of_mem _ (ih.2 t ht d hd)

/-- Every piece of a token of the fragment is whitespace-free and
equals-sign-free. -/
theorem fragment_value_safe (frag : String) (k v : String)
    (hmem : [k, v] ∈ (pyTokens frag.toList).map eqPieces) : tokenSafe v := by
  rw [List.mem_map] at hmem
  obtain ⟨tok, htok, hkv⟩ := hmem
  have htok2 : tok ∈ splitFull isWS frag.toList := by
    have := htok
    unfold pyTokens at this
    exact List.mem_of_mem_filter this
  have htokws : ∀ c ∈ tok, isWS c = false := by
    intro c hc
    unfold splitFull at htok2
    rcases List.mem_cons.mp htok2 with rfl | h2
    · exact (splitPred_all isWS frag.toList).1 c hc
    · exact (splitPred_all isWS frag.toList).2 _ h2 c hc
  unfold eqPieces at hkv
  have hlen : ((splitFull (fun c => c == '=') tok).map String.mk).length = 2 := by
    rw [hkv]
    rfl
  rw [List.length_map] at hlen
  rcases hp : splitFull (fun c => c == '=') tok with _ | ⟨p1, _ | ⟨p2, _ | ⟨p3, ps⟩⟩⟩
  · rw [hp] at hlen; simp at hlen
  · rw [hp] at hlen; simp at hlen
  · rw [hp] at hkv
    simp only [List.map_cons, List.map_nil, List.cons.injEq] at hkv
    obtain ⟨hk1, hv1, _⟩ := hkv
    have hv2 : v.toList = p2 := by rw [← hv1]; rfl
    intro c hc
    rw [hv2] at hc
    have hp2mem : p2 ∈ (splitPred (fun c => c == '=') tok).2 := by
      unfold splitFull at hp
      rcases hp3 : (splitPred (fun c => c == '=') tok).2 with _ | ⟨q, qs⟩
      · rw [hp3] at hp; simp at hp
      · rw [hp3] at hp
        simp only [List.cons.injEq] at hp
        rw [hp.2.1]
        exact List.mem_cons_self _ _
    have hceq : ¬ c = '=' := by
      have := (splitPred_all (fun c => c == '=') tok).2 p2 hp2mem c hc
      simpa using this
    have hcin : c ∈ tok := (splitPred_subset (fun c => c == '=') tok).2 p2 hp2mem c hc
    exact ⟨htokws c hcin, hceq⟩
  · rw [hp] at hlen; simp at hlen

/-- Membership in the finished dict comes from the element list or the
accumulator. -/
theorem dictBuild_mem (elems : List (List String)) :
    ∀ (acc : List (String × String)) (i : Nat) (d : List (String × String)),
      dictBuild elems acc i = .ok d →
      ∀ kv ∈ d, [kv.1, kv.2] ∈ elems ∨ kv ∈ acc := by
  induction elems with
  | nil =>
    intro acc i d h kv hkv
    unfold dictBuild at h
    cases h
    exact Or.inr hkv
  | cons e rest ih =>
    intro acc i d h kv hkv
    rcases e with _ | ⟨k2, _ | ⟨v2, _ | ⟨w, tl⟩⟩⟩
    · unfold dictBuild at h; simp at h
    · unfold dictBuild at h; simp at h
    · unfold dictBuild at h
      rcases ih (setAssoc acc k2 v2) (i + 1) d h kv hkv with h2 | h2
      · exact Or.inl (List.mem_cons_of_mem _ h2)
      · rcases mem_setAssoc acc k2 v2 kv h2 with h3 | h3
        · exact Or.inr h3
        · rw [h3]
          exact Or.inl (List.mem_cons_self _ _)
    · unfold dictBuild at h; simp at h

/-- Shape of a successful per-key step in zone context. -/
theorem applyZonePair_ok (m : ZoneMetadata) (kv : String × String) (m1 : ZoneMetadata)
    (h : applyZonePair m kv = .ok m1) :
    (∃ z, m1 = { m with zone := z }) ∨
    (∃ v, 0 < v ∧ m1 = { m with max_drones := v }) ∨
    (m1 = { m with color := some kv.2 }) := by
  unfold applyZonePair at h
  repeat' split at h
  all_goals first
    | (simp only [Except.ok.injEq] at h; subst h;
       first
         | exact Or.inl ⟨_, rfl⟩
         | exact Or.inr (Or.inl ⟨_, by omega, rfl⟩)
         | exact Or.inr (Or.inr rfl))
    | simp at h

/-- Shape of a successful per-key step in connection context. -/
theorem applyConnPair_ok (m : ConnectionMetadata) (kv : String × String)
    (m1 : ConnectionMetadata) (h : applyConnPair m kv = .ok m1) :
    ∃ v, 0 < v ∧ m1 = { m with max_link_capacity := v } := by
  unfold applyConnPair at h
  repeat' split at h
  all_goals first
    | (simp only [Except.ok.injEq] at h; subst h; exact ⟨_, by omega, rfl⟩)
    | simp at h

/-- Invariant of the zone per-key loop: parsed records carry a positive
drone bound and a token-safe color. -/
theorem foldPairs_zone_good (d : List (String × String))
    (hd : ∀ kv ∈ d, tokenSafe kv.2) :
    ∀ m0 : ZoneMetadata,
      0 < m0.max_drones → (∀ s, m0.color = some s → tokenSafe s) →
      ∀ m, foldPairs applyZonePair d m0 = .ok m →
        0 < m.max_drones ∧ ∀ s, m.color = some s → tokenSafe s := by
  induction d with
  | nil =>
    intro m0 h1 h2 m h
    unfold foldPairs at h
    cases h
    exact ⟨h1, h2⟩
  | cons kv rest ih =>
    intro m0 h1 h2 m h
    unfold foldPairs at h
    cases hs : applyZonePair m0 kv with
    | error e => rw [hs] at h; simp at h
    | ok m1 =>
      rw [hs] at h
      have hstep : foldPairs applyZonePair rest m1 = .ok m := h
      have hrest : ∀ kv2 ∈ rest, tokenSafe kv2.2 :=
        fun kv2 hk => hd kv2 (List.mem_cons_of_mem _ hk)
      rcases applyZonePair_ok m0 kv m1 hs with ⟨z, rfl⟩ | ⟨v, hv, rfl⟩ | rfl
      · exact ih hrest { m0 with zone := z } h1 h2 m hstep
      · exact ih hrest { m0 with max_drones := v } hv h2 m hstep
      · refine ih hrest { m0 with color := some kv.2 } h1 ?_ m hstep
        intro s hsv
        have hv2 : kv.2 = s := by simpa using hsv
        rw [← hv2]
        exact hd kv (List.mem_cons_self _ _)

/-- Invariant of the connection per-key loop. -/
theorem foldPairs_conn_good (d : List (String × String)) :
    ∀ m0 : ConnectionMetadata, 0 < m0.max_link_capacity →
      ∀ m, foldPairs applyConnPair d m0 = .ok m → 0 < m.max_link_capacity := by
  induction d with
  | nil =>
    intro m0 h1 m h
    unfold foldPairs at h
    cases h
    exact h1
  | cons kv rest ih =>
    intro m0 h1 m h
    unfold foldPairs at h
    cases hs : applyConnPair m0 kv with
    | error e => rw [hs] at h; simp at h
    | ok m1 =>
      rw [hs] at h
      have hstep : foldPairs applyConnPair rest m1 = .ok m := h
      obtain ⟨v, hv, rfl⟩ := applyConnPair_ok m0 kv m1 hs
      exact ih _ hv m hstep

/-- Any successfully parsed zone metadata record has a positive drone
bound and a token-safe color. -/
theorem parseZoneMeta_ok_good (frag : String) (m : ZoneMetadata)
    (h : parseZoneMeta frag = .ok m) :
    0 < m.max_drones ∧ ∀ s, m.color = some s → tokenSafe s := by
  unfold parseZoneMeta at h
  by_cases he : frag.toList.isEmpty
  · rw [if_pos he] at h
    simp only [Except.ok.injEq] at h
    subst h
    exact ⟨by decide, by intro s hs; simp at hs⟩
  · rw [if_neg he] at h
    cases hd : dictBuild ((pyTokens frag.toList).map eqPieces) [] 0 with
    | error e => rw [hd] at h; simp at h
    | ok d =>
      rw [hd] at h
      have hvals : ∀ kv ∈ d, tokenSafe kv.2 := by
        intro kv hkv
        rcases dictBuild_mem _ [] 0 d hd kv hkv with h2 | h2
        · exact fragment_value_safe frag kv.1 kv.2 h2
        · simp at h2
      exact foldPairs_zone_good d hvals {} (by decide)
        (by intro s hs; simp at hs) m h

/-- Any successfully parsed connection metadata record has a positive
link capacity. -/
theorem parseConnMeta_ok_good (frag : String) (m : ConnectionMetadata)
    (h : parseConnMeta frag = .ok m) : 0 < m.max_link_capacity := by
  unfold parseConnMeta at h
  by_cases he : frag.toList.isEmpty
  · rw [if_pos he] at h
    simp only [Except.ok.injEq] at h
    subst h
    decide
  · rw [if_neg he] at h
    cases hd : dictBuild ((pyTokens frag.toList).map eqPieces) [] 0 with
    | error e => rw [hd] at h; simp at h
    | ok d =>
      rw [hd] at h
      exact foldPairs_conn_good d {} (by decide) m h

theorem mkToList (s : String) : String.mk s.toList = s := rfl

theorem applyZonePair_zone (m : ZoneMetadata) (z : ZoneTypes) :
    applyZonePair m ("zone", zoneTypeStr z) = .ok { m with zone := z } := by
  unfold applyZonePair
  rw [if_neg (show ¬ ¬ (("zone" : String) ∈ zoneAllowed) from by decide)]
  rw [if_neg (show ¬ ("zone" : String) = "max_drones" from by decide)]
  rw [if_pos rfl]
  rw [zoneTypeStr_ok]

theorem applyZonePair_color (m : ZoneMetadata) (c : String) :
    applyZonePair m ("color", c) = .ok { m with color := some c } := by
  unfold applyZonePair
  rw [if_neg (show ¬ ¬ (("color" : String) ∈ zoneAllowed) from by decide)]
  rw [if_neg (show ¬ ("color" : String) = "max_drones" from by decide)]
  rw [if_neg (show ¬ ("color" : String) = "zone" from by decide)]

theorem applyZonePair_max (m : ZoneMetadata) (n : Int) (hn : 0 < n) :
    applyZonePair m ("max_drones", String.mk (intChars n)) =
      .ok { m with max_drones := n } := by
  unfold applyZonePair
  rw [if_neg (show ¬ ¬ (("max_drones" : String) ∈ zoneAllowed) from by decide)]
  rw [if_pos rfl]
  have hic : intChars n = natDigits n.toNat := by
    unfold intChars
    rw [if_neg (by omega)]
  have hpi : pyIntChars (String.mk (intChars n)).toList = some n := by
    rw [show (String.mk (intChars n)).toList = intChars n from rfl, hic,
        pyIntChars_natDigits]
    rw [Int.toNat_of_nonneg (le_of_lt hn)]
  rw [hpi]
  have hnle : ¬ n ≤ 0 := by omega
  simp [hnle]

theorem applyConnPair_max (m : ConnectionMetadata) (n : Int) (hn : 0 < n) :
    applyConnPair m ("max_link_capacity", String.mk (intChars n)) =
      .ok { m with max_link_capacity := n } := by
  unfold applyConnPair
  rw [if_neg (show ¬ ¬ (("max_link_capacity" : String) ∈ connAllowed) from by decide)]
  have hic : intChars n = natDigits n.toNat := by
    unfold intChars
    rw [if_neg (by omega)]
  have hpi : pyIntChars (String.mk (intChars n)).toList = some n := by
    rw [show (String.mk (intChars n)).toList = intChars n from rfl, hic,
        pyIntChars_natDigits]
    rw [Int.toNat_of_nonneg (le_of_lt hn)]
  rw [hpi]
  have hnle : ¬ n ≤ 0 := by omega
  simp [hnle]

theorem dictBuild_two (k1 k2 : String) (v1 v2 : String) (h : ¬ k1 = k2) :
    dictBuild [[k1, v1], [k2, v2]] [] 0 = .ok [(k1, v1), (k2, v2)] := by
  simp [dictBuild, setAssoc, h]

theorem dictBuild_three (k1 k2 k3 : String) (v1 v2 v3 : String)
    (h12 : ¬ k1 = k2) (h13 : ¬ k1 = k3) (h23 : ¬ k2 = k3) :
    dictBuild [[k1, v1], [k2, v2], [k3, v3]] [] 0 =
      .ok [(k1, v1), (k2, v2), (k3, v3)] := by
  simp [dictBuild, setAssoc, h12, h13, h23]

theorem digit_ne_eq (c : Char) (h : c.isDigit = true) : ¬ c = '=' := by
  intro hc
  subst hc
  exact absurd h (by decide)

/-- Parsing inverts the canonical serialization of a good zone
metadata record. -/
theorem parseZoneMeta_serialize (m : ZoneMetadata)
    (hmd : 0 < m.max_drones) (hcol : ∀ s, m.color = some s → tokenSafe s) :
    parseZoneMeta (serializeZoneMeta m) = .ok m := by
  obtain ⟨mc, mz, mn⟩ := m
  simp only at hmd hcol
  have hic : intChars mn = natDigits mn.toNat := by
    unfold intChars
    rw [if_neg (by omega)]
  have hdsd : ∀ c ∈ intChars mn, c.isDigit = true := by
    rw [hic]
    exact natDigitsAux_all _ [] (by intro c hc; simp at hc)
  have ht3ne : ("max_drones=".toList ++ intChars mn) ≠ [] := by simp
  have ht3nw : ∀ c ∈ "max_drones=".toList ++ intChars mn, isWS c = false := by
    intro c hc
    rcases List.mem_append.mp hc with h2 | h2
    · exact (show ∀ c ∈ "max_drones=".toList, isWS c = false from by decide) c h2
    · exact digit_not_ws c (hdsd c h2)
  have hzne : (zoneTypeStr mz).toList ≠ [] := (zoneTypeStr_chars mz).1
  have hznw : ∀ c ∈ (zoneTypeStr mz).toList, isWS c = false :=
    fun c hc => ((zoneTypeStr_chars mz).2 c hc).1
  have hzeq : ∀ c ∈ (zoneTypeStr mz).toList, ¬ c = '=' :=
    fun c hc => ((zoneTypeStr_chars mz).2 c hc).2
  have ht1ne : ("zone=".toList ++ (zoneTypeStr mz).toList) ≠ [] := by simp
  have ht1nw : ∀ c ∈ "zone=".toList ++ (zoneTypeStr mz).toList, isWS c = false := by
    intro c hc
    rcases List.mem_append.mp hc with h2 | h2
    · exact (show ∀ c ∈ "zone=".toList, isWS c = false from by decide) c h2
    · exact hznw c h2
  have he1 : eqPieces ("zone=".toList ++ (zoneTypeStr mz).toList) =
      ["zone", zoneTypeStr mz] := by
    rw [show "zone=".toList ++ (zoneTypeStr mz).toList =
        "zone".toList ++ '=' :: (zoneTypeStr mz).toList from rfl]
    rw [eqPieces_pair "zone".toList (zoneTypeStr mz).toList (by decide) hzeq]
    rw [mkToList, mkToList]
  have he3 : eqPieces ("max_drones=".toList ++ intChars mn) =
      ["max_drones", String.mk (intChars mn)] := by
    rw [show "max_drones=".toList ++ intChars mn =
        "max_drones".toList ++ '=' :: intChars mn from rfl]
    rw [eqPieces_pair "max_drones".toList (intChars mn) (by decide)
      (fun c hc => digit_ne_eq c (hdsd c hc))]
    rw [mkToList]
  have ha3 : applyZonePair { color := mc, zone := mz, max_drones := 1 }
      ("max_drones", String.mk (intChars mn)) =
      .ok { color := mc, zone := mz, max_drones := mn } :=
    applyZonePair_max _ mn hmd
  cases mc with
  | none =>
    have hL : (serializeZoneMeta ⟨none, mz, mn⟩).toList =
        ("zone=".toList ++ (zoneTypeStr mz).toList) ++
          ' ' :: ("max_drones=".toList ++ intChars mn) := by
      show ("zone=".toList ++ (zoneTypeStr mz).toList ++
        ([] : List Char) ++ " max_drones=".toList ++ intChars mn) = _
      simp
    unfold parseZoneMeta
    rw [hL]
    rw [if_neg (by simp)]
    rw [pyTokens_cons_token _ _ ht1ne ht1nw]
    rw [pyTokens_single _ ht3ne ht3nw]
    rw [List.map_cons, List.map_cons, List.map_nil, he1, he3]
    rw [dictBuild_two "zone" "max_drones" _ _ (by decide)]
    unfold foldPairs
    rw [applyZonePair_zone {} mz]
    unfold foldPairs
    rw [show applyZonePair { ({} : ZoneMetadata) with zone := mz }
        ("max_drones", String.mk (intChars mn)) =
        .ok { color := none, zone := mz, max_drones := mn } from
      applyZonePair_max _ mn hmd]
    rfl
  | some c =>
    have hcsafe : tokenSafe c := hcol c rfl
    have ht2ne : ("color=".toList ++ c.toList) ≠ [] := by simp
    have ht2nw : ∀ ch ∈ "color=".toList ++ c.toList, isWS ch = false := by
      intro ch hc
      rcases List.mem_append.mp hc with h2 | h2
      · exact (show ∀ c ∈ "color=".toList, isWS c = false from by decide) ch h2
      · exact (hcsafe ch h2).1
    have he2 : eqPieces ("color=".toList ++ c.toList) = ["color", c] := by
      rw [show "color=".toList ++ c.toList = "color".toList ++ '=' :: c.toList from rfl]
      rw [eqPieces_pair "color".toList c.toList (by decide)
        (fun ch hc => (hcsafe ch hc).2)]
      rw [mkToList, mkToList]
    have hL : (serializeZoneMeta ⟨some c, mz, mn⟩).toList =
        ("zone=".toList ++ (zoneTypeStr mz).toList) ++
          ' ' :: (("color=".toList ++ c.toList) ++
            ' ' :: ("max_drones=".toList ++ intChars mn)) := by
      show ("zone=".toList ++ (zoneTypeStr mz).toList ++
        (" color=".toList ++ c.toList) ++ " max_drones=".toList ++ intChars mn) = _
      simp
    unfold parseZoneMeta
    rw [hL]
    rw [if_neg (by simp)]
    rw [pyTokens_cons_token _ _ ht1ne ht1nw]
    rw [pyTokens_cons_token _ _ ht2ne ht2nw]
    rw [pyTokens_single _ ht3ne ht3nw]
    rw [List.map_cons, List.map_cons, List.map_cons, List.map_nil, he1, he2, he3]
    rw [dictBuild_three "zone" "color" "max_drones" _ _ _
      (by decide) (by decide) (by decide)]
    unfold foldPairs
    rw [applyZonePair_zone {} mz]
    unfold foldPairs
    rw [applyZonePair_color { ({} : ZoneMetadata) with zone := mz } c]
    unfold foldPairs
    rw [show applyZonePair { color := some c, zone := mz, max_drones := 1 }
        ("max_drones", String.mk (intChars mn)) =
        .ok { color := some c, zone := mz, max_drones := mn } from
      applyZonePair_max _ mn hmd]
    rfl

/-- Parsing inverts the canonical serialization of a good connection
metadata record. -/
theorem parseConnMeta_serialize (m : ConnectionMetadata)
    (hml : 0 < m.max_link_capacity) :
    parseConnMeta (serializeConnMeta m) = .ok m := by
  obtain ⟨mn⟩ := m
  simp only at hml
  have hic : intChars mn = natDigits mn.toNat := by
    unfold intChars
    rw [if_neg (by omega)]
  have hdsd : ∀ c ∈ intChars mn, c.isDigit = true := by
    rw [hic]
    exact natDigitsAux_all _ [] (by intro c hc; simp at hc)
  have htne : ("max_link_capacity=".toList ++ intChars mn) ≠ [] := by simp
  have htnw : ∀ c ∈ "max_link_capacity=".toList ++ intChars mn, isWS c = false := by
    intro c hc
    rcases List.mem_append.mp hc with h2 | h2
    · exact (show ∀ c ∈ "max_link_capacity=".toList, isWS c = false from by decide) c h2
    · exact digit_not_ws c (hdsd c h2)
  have he : eqPieces ("max_link_capacity=".toList ++ intChars mn) =
      ["max_link_capacity", String.mk (intChars mn)] := by
    rw [show "max_link_capacity=".toList ++ intChars mn =
        "max_link_capacity".toList ++ '=' :: intChars mn from rfl]
    rw [eqPieces_pair "max_link_capacity".toList (intChars mn) (by decide)
      (fun c hc => digit_ne_eq c (hdsd c hc))]
    rw [mkToList]
  have hL : (serializeConnMeta ⟨mn⟩).toList =
      "max_link_capacity=".toList ++ intChars mn := rfl
  unfold parseConnMeta
  rw [hL]
  rw [if_neg (by simp)]
  rw [pyTokens_single _ htne htnw]
  rw [List.map_cons, List.map_nil, he]
  rw [show dictBuild [["max_link_capacity", String.mk (intChars mn)]] [] 0 =
      .ok [("max_link_capacity", String.mk (intChars mn))] from by
    simp [dictBuild, setAssoc]]
  unfold foldPairs
  rw [applyConnPair_max {} mn hml]
  rfl

/-- Claim C8: metadata parsing is idempotent under round-trip in both
contexts: any record produced by a successful parse of a fragment is
reproduced exactly by parsing its canonical re-serialization. -/
theorem C8_roundtrip (frag : String) :
    (∀ m : ZoneMetadata, parseZoneMeta frag = .ok m →
      parseZoneMeta (serializeZoneMeta m) = .ok m) ∧
    (∀ m : ConnectionMetadata, parseConnMeta frag = .ok m →
      parseConnMeta (serializeConnMeta m) = .ok m) := by
  constructor
  · intro m h
    obtain ⟨h1, h2⟩ := parseZoneMeta_ok_good frag m h
    exact parseZoneMeta_serialize m h1 h2
  · intro m h
    exact parseConnMeta_serialize m (parseConnMeta_ok_good frag m h)

/-- Claim C8, witness: a concrete fragment in each context, parsed and
re-parsed through its serialization. -/
theorem C8_witness :
    parseZoneMeta "zone=blocked color=red max_drones=3" =
      .ok { color := some "red", zone := .blocked, max_drones := 3 } ∧
    parseZoneMeta (serializeZoneMeta
        { color := some "red", zone := .blocked, max_drones := 3 }) =
      .ok { color := some "red", zone := .blocked, max_drones := 3 } ∧
    parseConnMeta (serializeConnMeta ⟨2⟩) = .ok ⟨2⟩ :=
  ⟨by decide,
   (C8_roundtrip "zone=blocked color=red max_drones=3").1
     { color := some "red", zone := .blocked, max_drones := 3 } (by decide),
   (C8_roundtrip "max_link_capacity=2").2 ⟨2⟩ (by decide)⟩
